import Mathlib

/-!
# I2C master transmitter driver and TIM6 busy-wait delays (`task.c`)

A shallow embedding of `src/server/client/temp/task.c`.

* Memory-mapped registers are 32-bit words, kept as `Nat` reduced modulo `2^32`.
* Control and configuration registers behave as plain storage.
* The hardware-driven registers (`I2C1->SR1`, `I2C1->SR2`, `TIM6->SR`,
  `TIM6->CNT`) are volatile: the value returned by the `i`-th read of such a
  register is given by a feed `hw r i`, an arbitrary sequence per register.
* Every register access is appended to a trace, in program order.
* A busy-wait loop takes a bound on its number of iterations (`fuel`) and yields
  `none` when the bound is reached before the loop condition turns false.
-/

namespace Task

/-- The registers `task.c` touches, named after the peripheral and the field of
the vendor header (`GPIOB_AFR1` is `GPIOB->AFR[1]`). -/
inductive Reg
  | RCC_APB1ENR
  | RCC_AHB1ENR
  | GPIOB_MODER
  | GPIOB_OTYPER
  | GPIOB_OSPEEDR
  | GPIOB_PUPDR
  | GPIOB_AFR1
  | I2C1_CR1
  | I2C1_CR2
  | I2C1_SR1
  | I2C1_SR2
  | I2C1_DR
  | I2C1_CCR
  | I2C1_TRISE
  | TIM6_PSC
  | TIM6_ARR
  | TIM6_CR1
  | TIM6_SR
  | TIM6_CNT
  deriving DecidableEq

open Reg

/-- Modelled from the spec: the peripherals themselves are not code of the
repository. The status registers SR1 and SR2 of I2C1, the status register of
TIM6 and its counter CNT are driven by the hardware; what a read of the other
registers returns is the value last written. -/
def Reg.isStatus : Reg → Bool
  | I2C1_SR1 => true
  | I2C1_SR2 => true
  | TIM6_SR => true
  | TIM6_CNT => true
  | _ => false

/-- One register access: a read that returned `v`, or a write of `v`. -/
inductive Access
  | rd (r : Reg) (v : Nat)
  | wr (r : Reg) (v : Nat)
  deriving DecidableEq

/-- The values the hardware returns: `hw r i` is what the `i`-th read of the
volatile register `r` yields. -/
abbrev Feed := Reg → Nat → Nat

/-- Machine state: the stored register values, how many times each volatile
register has been read, and the accesses made so far. -/
@[ext]
structure Machine where
  regs : Reg → Nat
  pos : Reg → Nat
  trace : List Access

/-- Modelled from the spec: the register declarations of the vendor header
`stm32f429xx.h` are not among the sources; a register access is a single
32-bit word, so a value read or written is truncated to 32 bits. -/
def word (v : Nat) : Nat := v % 2 ^ 32

/-- Bitwise complement of a 32-bit word (`~x` converted to `uint32_t`). -/
def not32 (x : Nat) : Nat := 0xFFFFFFFF ^^^ word x

/-- A volatile read of register `r`. -/
def rd (hw : Feed) (r : Reg) (m : Machine) : Nat × Machine :=
  if r.isStatus then
    (word (hw r (m.pos r)),
      { m with pos := Function.update m.pos r (m.pos r + 1),
               trace := m.trace ++ [Access.rd r (word (hw r (m.pos r)))] })
  else
    (word (m.regs r), { m with trace := m.trace ++ [Access.rd r (word (m.regs r))] })

/-- A volatile write of `v` to register `r`. -/
def wr (r : Reg) (v : Nat) (m : Machine) : Machine :=
  { m with regs := Function.update m.regs r (word v),
           trace := m.trace ++ [Access.wr r (word v)] }

/-- The three statement forms of the straight-line code. -/
inductive Stmt
  | orEq (r : Reg) (c : Nat)
  | andEq (r : Reg) (c : Nat)
  | assign (r : Reg) (c : Nat)
  deriving DecidableEq

/-- Execution of `r |= c`, `r &= c` (read, then write) and `r = c`. -/
def execStmt (hw : Feed) : Stmt → Machine → Machine
  | Stmt.orEq r c, m => wr r ((rd hw r m).1 ||| c) (rd hw r m).2
  | Stmt.andEq r c, m => wr r ((rd hw r m).1 &&& c) (rd hw r m).2
  | Stmt.assign r c, m => wr r c m

/-- Execution of a statement sequence, first statement first. -/
def execStmts (hw : Feed) : List Stmt → Machine → Machine
  | [], m => m
  | s :: ss, m => execStmts hw ss (execStmt hw s m)

/-- A busy-wait loop `while (again(r));`: read `r` until `again` is false of the
value read. -/
def poll (hw : Feed) (r : Reg) (again : Nat → Bool) : Nat → Machine → Option Machine
  | 0, _ => none
  | fuel + 1, m =>
    if again (rd hw r m).1 then poll hw r again fuel (rd hw r m).2
    else some (rd hw r m).2

/-- The loop `while (!(r & mask));`. -/
def waitSet (hw : Feed) (r : Reg) (mask : Nat) (fuel : Nat) (m : Machine) : Option Machine :=
  poll hw r (fun v => v &&& mask == 0) fuel m

/-- The loop `while (TIM6->CNT < us);`. -/
def waitCnt (hw : Feed) (us : Nat) (fuel : Nat) (m : Machine) : Option Machine :=
  poll hw TIM6_CNT (fun v => decide (v < us)) fuel m

/-- The statements of `TIM6Config` before its wait loop (lines 23-26). -/
def TIM6Config_body : List Stmt :=
  [ Stmt.orEq RCC_APB1ENR (1 <<< 4),
    Stmt.assign TIM6_PSC (180 - 1),
    Stmt.assign TIM6_ARR 0xffff,
    Stmt.orEq TIM6_CR1 (1 <<< 0) ]

/-- The function `void TIM6Config (void)` (lines 21-28): the four statements, then
the wait for UIF, `while (!(TIM6->SR & (1<<0)));`. -/
def TIM6Config (hw : Feed) (fuel : Nat) (m : Machine) : Option Machine :=
  waitSet hw TIM6_SR (1 <<< 0) fuel (execStmts hw TIM6Config_body m)

/-- The function `void Delay_us (uint16_t us)` (lines 37-41):
`TIM6->CNT = 0; while (TIM6->CNT < us);`. The argument is a 16-bit value. -/
def Delay_us (hw : Feed) (fuel : Nat) (us : Nat) (m : Machine) : Option Machine :=
  waitCnt hw (us % 65536) fuel (wr TIM6_CNT 0 m)

/-- The loop of `Delay_ms`: `for (uint16_t i=0; i<ms; i++) Delay_us (1000);`
entered with counter value `i`; the increment is that of a 16-bit counter. -/
def Delay_ms_loop (hw : Feed) (fuel : Nat) (ms : Nat) (hms : ms < 65536) (i : Nat)
    (m : Machine) : Option Machine :=
  if i < ms then
    match Delay_us hw fuel 1000 m with
    | none => none
    | some m1 => Delay_ms_loop hw fuel ms hms ((i + 1) % 65536) m1
  else some m
termination_by ms - i
decreasing_by
  have h1 : (i + 1) % 65536 = i + 1 := Nat.mod_eq_of_lt (by omega)
  omega

/-- The function `void Delay_ms (uint16_t ms)` (lines 50-56). The argument is a
16-bit value. -/
def Delay_ms (hw : Feed) (fuel : Nat) (ms : Nat) (m : Machine) : Option Machine :=
  Delay_ms_loop hw fuel (ms % 65536) (Nat.mod_lt ms (by decide)) 0 m

/-- The statements of `I2C_Config` (lines 63-90), in program order. -/
def I2C_Config_body : List Stmt :=
  [ Stmt.orEq RCC_APB1ENR (1 <<< 21),
    Stmt.orEq RCC_AHB1ENR (1 <<< 1),
    Stmt.orEq GPIOB_MODER ((2 <<< 16) ||| (2 <<< 18)),
    Stmt.orEq GPIOB_OTYPER ((1 <<< 8) ||| (1 <<< 9)),
    Stmt.orEq GPIOB_OSPEEDR ((3 <<< 16) ||| (3 <<< 18)),
    Stmt.orEq GPIOB_PUPDR ((1 <<< 16) ||| (1 <<< 18)),
    Stmt.orEq GPIOB_AFR1 ((4 <<< 0) ||| (4 <<< 4)),
    Stmt.orEq I2C1_CR1 (1 <<< 15),
    Stmt.andEq I2C1_CR1 (not32 (1 <<< 15)),
    Stmt.orEq I2C1_CR2 (45 <<< 0),
    Stmt.assign I2C1_CCR (225 <<< 0),
    Stmt.assign I2C1_TRISE 46,
    Stmt.orEq I2C1_CR1 (1 <<< 0) ]

/-- The function `void I2C_Config (void)` (lines 58-92). -/
def I2C_Config (hw : Feed) (m : Machine) : Machine :=
  execStmts hw I2C_Config_body m

/-- The function `void I2C_Start (void)` (lines 97-106): `CR1 |= (1<<10)`,
`CR1 |= (1<<8)`, then `while (!(I2C1->SR1 & (1<<0)));`. -/
def I2C_Start (hw : Feed) (fuel : Nat) (m : Machine) : Option Machine :=
  waitSet hw I2C1_SR1 (1 <<< 0) fuel
    (execStmts hw [Stmt.orEq I2C1_CR1 (1 <<< 10), Stmt.orEq I2C1_CR1 (1 <<< 8)] m)

/-- The function `void I2C_Write (uint8_t data)` (lines 111-120):
`while (!(I2C1->SR1 & (1<<7)));`, `I2C1->DR = data;`,
`while (!(I2C1->SR1 & (1<<2)));`. The argument is an 8-bit value. -/
def I2C_Write (hw : Feed) (fuel : Nat) (data : Nat) (m : Machine) : Option Machine :=
  match waitSet hw I2C1_SR1 (1 <<< 7) fuel m with
  | none => none
  | some m1 => waitSet hw I2C1_SR1 (1 <<< 2) fuel (wr I2C1_DR (data % 256) m1)

/-- The function `void I2C_Address (uint8_t Address)` (lines 125-134):
`I2C1->DR = Address;`, `while (!(I2C1->SR1 & (1<<1)));`, then
`temp = I2C1->SR1 | I2C1->SR2`, taken as a read of SR1 followed by a read of
SR2 whose value is discarded. The argument is an 8-bit value. -/
def I2C_Address (hw : Feed) (fuel : Nat) (Address : Nat) (m : Machine) : Option Machine :=
  match waitSet hw I2C1_SR1 (1 <<< 1) fuel (wr I2C1_DR (Address % 256) m) with
  | none => none
  | some m1 => some (rd hw I2C1_SR2 (rd hw I2C1_SR1 m1).2).2

/-- The function `void I2C_Stop (void)` (lines 139-146): `I2C1->CR1 |= (1<<9);`. -/
def I2C_Stop (hw : Feed) (m : Machine) : Machine :=
  execStmt hw (Stmt.orEq I2C1_CR1 (1 <<< 9)) m

/-- One pass through the body of the `while(1)` loop of `main`, entered with
the local `dec`; `add` is the constant `0x40`. -/
def main_body (hw : Feed) (fuel : Nat) (dec : Nat) (m : Machine) : Option (Nat × Machine) :=
  match I2C_Start hw fuel m with
  | none => none
  | some m1 =>
    match I2C_Address hw fuel 0x40 m1 with
    | none => none
    | some m2 =>
      match I2C_Write hw fuel dec m2 with
      | none => none
      | some m3 =>
        match Delay_ms hw fuel 100 (I2C_Stop hw m3) with
        | none => none
        | some m4 => some ((dec + 0x1) % 256, m4)

/-- The part of the loop body of `main` before the delay (lines 156-160):
`I2C_Start(); I2C_Address(add); I2C_Write(dec); dec = (dec+0x1)%256; I2C_Stop();`
entered with the local `dec`. The result is the new `dec` and the state in
which `Delay_ms(100)` is then called. -/
def main_transfer (hw : Feed) (fuel : Nat) (dec : Nat) (m : Machine) :
    Option (Nat × Machine) :=
  match I2C_Start hw fuel m with
  | none => none
  | some m1 =>
    match I2C_Address hw fuel 0x40 m1 with
    | none => none
    | some m2 =>
      match I2C_Write hw fuel dec m2 with
      | none => none
      | some m3 => some ((dec + 0x1) % 256, I2C_Stop hw m3)

/-- The first `n` passes of the `while(1)` loop of `main`. -/
def main_loop (hw : Feed) (fuel : Nat) : Nat → Nat × Machine → Option (Nat × Machine)
  | 0, s => some s
  | n + 1, s =>
    match main_loop hw fuel n s with
    | none => none
    | some s1 => main_body hw fuel s1.1 s1.2

/-- The function `int main()` (lines 148-163), run up to the end of pass number
`n` of its endless loop: `I2C_Config(); TIM6Config(); dec = 0x0;` and `n`
passes. The result is the value of `dec` and the machine state. -/
def main (hw : Feed) (fuel : Nat) (n : Nat) (m : Machine) : Option (Nat × Machine) :=
  match TIM6Config hw fuel (I2C_Config hw m) with
  | none => none
  | some m1 => main_loop hw fuel n (0x0, m1)

/-- The values written to `I2C1->DR`, in order. -/
def drWrites : List Access → List Nat
  | [] => []
  | Access.wr I2C1_DR v :: t => v :: drWrites t
  | _ :: t => drWrites t

/-- The writes of a trace, in order. -/
def writesOf : List Access → List (Reg × Nat)
  | [] => []
  | Access.wr r v :: t => (r, v) :: writesOf t
  | Access.rd _ _ :: t => writesOf t

/-- Bit `i` of a register value. -/
def bit (v : Nat) (i : Nat) : Bool := v.testBit i

/-- The field `v[lo + width - 1 : lo]`. -/
def field (v lo width : Nat) : Nat := (v >>> lo) % 2 ^ width

/-- A hardware feed on which every volatile register reads all-ones. -/
def allSet : Feed := fun _ _ => 0xFFFFFFFF

/-- The machine with every register zero and an empty trace. -/
def m0 : Machine := { regs := fun _ => 0, pos := fun _ => 0, trace := [] }

/-- The machine after `k` further reads of the volatile register `r`. -/
def afterReads (hw : Feed) (r : Reg) (k : Nat) (m : Machine) : Machine :=
  { regs := m.regs,
    pos := Function.update m.pos r (m.pos r + k),
    trace := m.trace ++
      (List.range k).map (fun i => Access.rd r (word (hw r (m.pos r + i)))) }

/-- The machine at the moment statement number `k` (counted from 0) of
`I2C_Config` is about to execute; `k = 13` is the state on return. -/
def I2C_Config_at (hw : Feed) (k : Nat) (m : Machine) : Machine :=
  execStmts hw (I2C_Config_body.take k) m

/-- PB8 and PB9 are alternate function, open-drain, high speed, pull-up, AF4. -/
def pinsConfigured (regs : Reg → Nat) : Prop :=
  field (regs GPIOB_MODER) 16 2 = 2 ∧ field (regs GPIOB_MODER) 18 2 = 2 ∧
  bit (regs GPIOB_OTYPER) 8 = true ∧ bit (regs GPIOB_OTYPER) 9 = true ∧
  field (regs GPIOB_OSPEEDR) 16 2 = 3 ∧ field (regs GPIOB_OSPEEDR) 18 2 = 3 ∧
  field (regs GPIOB_PUPDR) 16 2 = 1 ∧ field (regs GPIOB_PUPDR) 18 2 = 1 ∧
  field (regs GPIOB_AFR1) 0 4 = 4 ∧ field (regs GPIOB_AFR1) 4 4 = 4

instance (regs : Reg → Nat) : Decidable (pinsConfigured regs) := by
  unfold pinsConfigured; infer_instance

/-- The bits of the PB8/PB9 fields that `I2C_Config` does not set are clear. -/
def entryBitsClear (regs : Reg → Nat) : Prop :=
  bit (regs GPIOB_MODER) 16 = false ∧ bit (regs GPIOB_MODER) 18 = false ∧
  bit (regs GPIOB_PUPDR) 17 = false ∧ bit (regs GPIOB_PUPDR) 19 = false ∧
  bit (regs GPIOB_AFR1) 0 = false ∧ bit (regs GPIOB_AFR1) 1 = false ∧
  bit (regs GPIOB_AFR1) 3 = false ∧ bit (regs GPIOB_AFR1) 4 = false ∧
  bit (regs GPIOB_AFR1) 5 = false ∧ bit (regs GPIOB_AFR1) 7 = false

instance (regs : Reg → Nat) : Decidable (entryBitsClear regs) := by
  unfold entryBitsClear; infer_instance

/-- The part of the power-on reset state `I2C_Config` depends on: CR1 and CR2
of I2C1 are zero and so are the PB8 and PB9 fields of the GPIOB registers. -/
def atReset (regs : Reg → Nat) : Prop :=
  regs I2C1_CR1 = 0 ∧ regs I2C1_CR2 = 0 ∧
  field (regs GPIOB_MODER) 16 2 = 0 ∧ field (regs GPIOB_MODER) 18 2 = 0 ∧
  bit (regs GPIOB_OTYPER) 8 = false ∧ bit (regs GPIOB_OTYPER) 9 = false ∧
  field (regs GPIOB_OSPEEDR) 16 2 = 0 ∧ field (regs GPIOB_OSPEEDR) 18 2 = 0 ∧
  field (regs GPIOB_PUPDR) 16 2 = 0 ∧ field (regs GPIOB_PUPDR) 18 2 = 0 ∧
  field (regs GPIOB_AFR1) 0 4 = 0 ∧ field (regs GPIOB_AFR1) 4 4 = 0

instance (regs : Reg → Nat) : Decidable (atReset regs) := by
  unfold atReset; infer_instance

/-- A state in which PB8 is a general-purpose output (MODER[17:16] = 0b01) and
every other register is zero. -/
def pb8Output : Machine :=
  { regs := fun r => if r = GPIOB_MODER then 1 <<< 16 else 0, pos := fun _ => 0, trace := [] }

/-- Makes `n` successive calls of `f`, given up at the first call that does not
return. -/
def repeatCall (f : Machine → Option Machine) : Nat → Machine → Option Machine
  | 0, m => some m
  | n + 1, m =>
    match f m with
    | none => none
    | some m1 => repeatCall f n m1

/-- The timer model: from its read number `p` on, `TIM6->CNT` is seen as a
16-bit up-counter that holds 0 at read `p`, advances by at most one tick
between successive reads, wrapping from 0xFFFF to 0, and always advances again
at some later read. -/
def TimerModel (hw : Feed) (p : Nat) : Prop :=
  hw TIM6_CNT p = 0 ∧
  (∀ i, p ≤ i → hw TIM6_CNT (i + 1) = hw TIM6_CNT i ∨
    hw TIM6_CNT (i + 1) = (hw TIM6_CNT i + 1) % 65536) ∧
  (∀ i, p ≤ i → ∃ j, i < j ∧ hw TIM6_CNT j ≠ hw TIM6_CNT i)

/-- A peripheral on which every status flag reads as set and the counter of
TIM6 stays at 0. -/
def stuckTimer : Feed := fun r _ => if r = TIM6_CNT then 0 else 0xFFFFFFFF

/-- A timer that ticks once between any two successive reads of `TIM6->CNT`;
every status flag reads as set. -/
def tickingTimer : Feed := fun r i => if r = TIM6_CNT then i % 65536 else 0xFFFFFFFF

/-- Two bounded computations in sequence, under the same bound. -/
def seq {α β γ : Type} (f : Nat → α → Option β) (g : Nat → β → Option γ) :
    Nat → α → Option γ :=
  fun fuel a => (f fuel a).bind (g fuel)

/-- A computation without a loop. -/
def step {α β : Type} (h : α → β) : Nat → α → Option β := fun _ a => some (h a)

/-- Raising the bound does not change a result already reached. -/
def Mono {α β : Type} (f : Nat → α → Option β) : Prop :=
  ∀ fuel fuel' a b, fuel ≤ fuel' → f fuel a = some b → f fuel' a = some b

/-- From every state the computation returns under some bound. -/
def Total {α β : Type} (f : Nat → α → Option β) : Prop :=
  ∀ a, ∃ fuel b, f fuel a = some b

/-- However many times the volatile register `r` has been read, a later read
returns a value with a bit of `mask` set. -/
def FlagLive (hw : Feed) (r : Reg) (mask : Nat) : Prop :=
  ∀ p, ∃ j, p ≤ j ∧ word (hw r j) &&& mask ≠ 0

/-- A hardware model in which every polled status flag is eventually observed
set: UIF of TIM6, and SB, ADDR, TXE and BTF of I2C1. -/
def FlagsLive (hw : Feed) : Prop :=
  FlagLive hw TIM6_SR (1 <<< 0) ∧ FlagLive hw I2C1_SR1 (1 <<< 0) ∧
  FlagLive hw I2C1_SR1 (1 <<< 1) ∧ FlagLive hw I2C1_SR1 (1 <<< 7) ∧
  FlagLive hw I2C1_SR1 (1 <<< 2)

/-- However many times `TIM6->CNT` has been read, a later read returns a value
of at least 1000: the counter is eventually observed to have reached 1000. -/
def TimerLive (hw : Feed) : Prop :=
  ∀ p, ∃ j, p ≤ j ∧ 1000 ≤ word (hw TIM6_CNT j)

/-- Every wait loop of the program comes to an end: the polled flags are
eventually observed set and the counter is eventually observed at 1000. -/
def Live (hw : Feed) : Prop := FlagsLive hw ∧ TimerLive hw

/-- Between the states `m` and `m'` the program made further accesses, and the
values they wrote to `I2C1->DR` are `ws`, in order. -/
def Performs (m m' : Machine) (ws : List Nat) : Prop :=
  ∃ tr, m'.trace = m.trace ++ tr ∧ drWrites tr = ws

/-- The DR writes of `n` passes of the loop of `main`: `0x40, 0, 0x40, 1, ...`. -/
def rampWrites : Nat → List Nat
  | 0 => []
  | n + 1 => rampWrites n ++ [0x40, n % 256]

/-! ## Register reads and busy-wait loops -/

theorem rd_status (hw : Feed) (r : Reg) (m : Machine) (hr : r.isStatus = true) :
    rd hw r m = (word (hw r (m.pos r)), afterReads hw r 1 m) := by
  simp [rd, hr, afterReads, List.range_succ]

theorem rd_stored (hw : Feed) (r : Reg) (m : Machine) (hr : r.isStatus = false) :
    rd hw r m = (word (m.regs r), { m with trace := m.trace ++ [Access.rd r (word (m.regs r))] }) := by
  simp [rd, hr]

theorem afterReads_succ (hw : Feed) (r : Reg) (k : Nat) (m : Machine) :
    afterReads hw r k (afterReads hw r 1 m) = afterReads hw r (k + 1) m := by
  ext1
  · simp [afterReads]
  · simp [afterReads, Nat.add_assoc, Nat.add_comm 1 k]
  · have h1 : List.range (k + 1) = 0 :: (List.range k).map Nat.succ := List.range_succ_eq_map k
    simp [afterReads, h1, List.range_succ, Function.comp_def, Nat.add_assoc, Nat.add_comm 1]

theorem poll_iff (hw : Feed) (r : Reg) (again : Nat → Bool) (hr : r.isStatus = true)
    (fuel : Nat) (m m' : Machine) :
    poll hw r again fuel m = some m' ↔
      ∃ k, k < fuel ∧ again (word (hw r (m.pos r + k))) = false ∧
        (∀ i, i < k → again (word (hw r (m.pos r + i))) = true) ∧
        m' = afterReads hw r (k + 1) m := by
  induction fuel generalizing m with
  | zero => simp [poll]
  | succ n ih =>
    rw [poll, rd_status hw r m hr]
    by_cases h : again (word (hw r (m.pos r))) = true
    · simp only [h, if_true]
      rw [ih]
      have hp : (afterReads hw r 1 m).pos r = m.pos r + 1 := by simp [afterReads]
      constructor
      · rintro ⟨k, hk, hf, ha, hm⟩
        refine ⟨k + 1, by omega, ?_, ?_, ?_⟩
        · rw [hp] at hf
          rw [← hf]; congr 3; omega
        · intro i hi
          cases i with
          | zero => simpa using h
          | succ j =>
            have := ha j (by omega)
            rw [hp] at this
            rw [← this]; congr 3; omega
        · rw [hm, afterReads_succ]
      · rintro ⟨k, hk, hf, ha, hm⟩
        cases k with
        | zero => simp [h] at hf
        | succ j =>
          refine ⟨j, by omega, ?_, ?_, ?_⟩
          · rw [hp, ← hf]; congr 3; omega
          · intro i hi
            rw [hp, ← ha (i + 1) (by omega)]; congr 3; omega
          · rw [hm, afterReads_succ]
    · simp only [h, if_false]
      have h' : again (word (hw r (m.pos r))) = false := by simpa using h
      constructor
      · intro hm
        refine ⟨0, by omega, by simpa using h', by intro i hi; omega, ?_⟩
        simpa using (Option.some.inj hm).symm
      · rintro ⟨k, hk, hf, ha, hm⟩
        cases k with
        | zero => simp [hm]
        | succ j =>
          have := ha 0 (by omega)
          simp [h'] at this

theorem poll_mono (hw : Feed) (r : Reg) (again : Nat → Bool) (hr : r.isStatus = true)
    (fuel fuel' : Nat) (hle : fuel ≤ fuel') (m m' : Machine)
    (h : poll hw r again fuel m = some m') : poll hw r again fuel' m = some m' := by
  rw [poll_iff hw r again hr] at h ⊢
  obtain ⟨k, hk, rest⟩ := h
  exact ⟨k, by omega, rest⟩

theorem poll_returns (hw : Feed) (r : Reg) (again : Nat → Bool) (hr : r.isStatus = true)
    (m : Machine) (h : ∃ j, m.pos r ≤ j ∧ again (word (hw r j)) = false) :
    ∃ fuel m', poll hw r again fuel m = some m' := by
  have h2 : ∃ k, again (word (hw r (m.pos r + k))) = false := by
    obtain ⟨j, hj, hf⟩ := h
    refine ⟨j - m.pos r, ?_⟩
    rw [← hf]; congr 3; omega
  refine ⟨Nat.find h2 + 1, afterReads hw r (Nat.find h2 + 1) m, ?_⟩
  rw [poll_iff hw r again hr]
  refine ⟨Nat.find h2, by omega, Nat.find_spec h2, ?_, rfl⟩
  intro i hi
  have := Nat.find_min h2 hi
  simpa using this

theorem poll_shape (hw : Feed) (r : Reg) (again : Nat → Bool) (hr : r.isStatus = true)
    (fuel : Nat) (m m' : Machine) (h : poll hw r again fuel m = some m') :
    ∃ vs v, m'.trace = m.trace ++ (vs ++ [v]).map (Access.rd r) ∧
      again v = false ∧ (∀ x ∈ vs, again x = true) ∧
      vs ++ [v] = (List.range (vs.length + 1)).map (fun i => word (hw r (m.pos r + i))) ∧
      m'.regs = m.regs ∧ m'.pos = Function.update m.pos r (m.pos r + (vs.length + 1)) := by
  rw [poll_iff hw r again hr] at h
  obtain ⟨k, -, hf, ha, hm⟩ := h
  refine ⟨(List.range k).map (fun i => word (hw r (m.pos r + i))), word (hw r (m.pos r + k)),
    ?_, hf, ?_, ?_, ?_, ?_⟩
  · rw [hm]
    simp [afterReads, List.range_succ]
  · intro x hx
    simp only [List.mem_map, List.mem_range] at hx
    obtain ⟨i, hi, rfl⟩ := hx
    exact ha i hi
  · simp [List.range_succ]
  · rw [hm]; rfl
  · rw [hm]; simp [afterReads]

theorem word_lt (v : Nat) : word v < 2 ^ 32 := Nat.mod_lt _ (by decide)

theorem word_of_lt {v : Nat} (h : v < 2 ^ 32) : word v = v := Nat.mod_eq_of_lt h

theorem word_or (v c : Nat) (hc : c < 2 ^ 32) : word (word v ||| c) = word v ||| c :=
  word_of_lt (Nat.or_lt_two_pow (word_lt v) hc)

theorem word_and (v c : Nat) (hc : c < 2 ^ 32) : word (word v &&& c) = word v &&& c :=
  word_of_lt (Nat.and_lt_two_pow _ hc)

theorem execStmt_orEq (hw : Feed) (r : Reg) (c : Nat) (m : Machine)
    (hr : r.isStatus = false) (hc : c < 2 ^ 32) :
    execStmt hw (Stmt.orEq r c) m =
      { regs := Function.update m.regs r (word (m.regs r) ||| c),
        pos := m.pos,
        trace := m.trace ++ [Access.rd r (word (m.regs r)), Access.wr r (word (m.regs r) ||| c)] } := by
  simp [execStmt, rd_stored hw r m hr, wr, word_or _ _ hc]

theorem execStmt_andEq (hw : Feed) (r : Reg) (c : Nat) (m : Machine)
    (hr : r.isStatus = false) (hc : c < 2 ^ 32) :
    execStmt hw (Stmt.andEq r c) m =
      { regs := Function.update m.regs r (word (m.regs r) &&& c),
        pos := m.pos,
        trace := m.trace ++ [Access.rd r (word (m.regs r)), Access.wr r (word (m.regs r) &&& c)] } := by
  simp [execStmt, rd_stored hw r m hr, wr, word_and _ _ hc]

theorem execStmt_assign (hw : Feed) (r : Reg) (c : Nat) (m : Machine) (hc : c < 2 ^ 32) :
    execStmt hw (Stmt.assign r c) m =
      { regs := Function.update m.regs r c,
        pos := m.pos,
        trace := m.trace ++ [Access.wr r c] } := by
  simp [execStmt, wr, word_of_lt hc]

theorem drWrites_append (a b : List Access) : drWrites (a ++ b) = drWrites a ++ drWrites b := by
  induction a with
  | nil => rfl
  | cons x t ih =>
    cases x with
    | rd r v => simpa [drWrites] using ih
    | wr r v => cases r <;> simpa [drWrites] using ih

theorem writesOf_append (a b : List Access) : writesOf (a ++ b) = writesOf a ++ writesOf b := by
  induction a with
  | nil => rfl
  | cons x t ih =>
    cases x with
    | rd r v => simpa [writesOf] using ih
    | wr r v => simpa [writesOf] using ih

theorem writesOf_reads (r : Reg) (vs : List Nat) : writesOf (vs.map (Access.rd r)) = [] := by
  induction vs with
  | nil => rfl
  | cons x t ih => simpa [writesOf] using ih

theorem drWrites_reads (r : Reg) (vs : List Nat) : drWrites (vs.map (Access.rd r)) = [] := by
  induction vs with
  | nil => rfl
  | cons x t ih => simpa [drWrites] using ih

theorem waitSet_shape (hw : Feed) (r : Reg) (mask : Nat) (hr : r.isStatus = true)
    (fuel : Nat) (m m' : Machine) (h : waitSet hw r mask fuel m = some m') :
    ∃ vs v, m'.trace = m.trace ++ (vs ++ [v]).map (Access.rd r) ∧
      v &&& mask ≠ 0 ∧ (∀ x ∈ vs, x &&& mask = 0) ∧
      vs ++ [v] = (List.range (vs.length + 1)).map (fun i => word (hw r (m.pos r + i))) ∧
      m'.regs = m.regs ∧ m'.pos = Function.update m.pos r (m.pos r + (vs.length + 1)) := by
  obtain ⟨vs, v, ht, hv, hvs, hfeed, hregs, hpos⟩ := poll_shape hw r _ hr fuel m m' h
  refine ⟨vs, v, ht, ?_, ?_, hfeed, hregs, hpos⟩
  · simpa using hv
  · intro x hx
    simpa using hvs x hx

theorem waitSet_returns (hw : Feed) (r : Reg) (mask : Nat) (hr : r.isStatus = true)
    (m : Machine) (h : ∃ j, m.pos r ≤ j ∧ word (hw r j) &&& mask ≠ 0) :
    ∃ fuel m', waitSet hw r mask fuel m = some m' := by
  apply poll_returns hw r _ hr m
  obtain ⟨j, hj, hv⟩ := h
  exact ⟨j, hj, by simpa using hv⟩

theorem waitSet_mono (hw : Feed) (r : Reg) (mask : Nat) (hr : r.isStatus = true)
    (fuel fuel' : Nat) (hle : fuel ≤ fuel') (m m' : Machine)
    (h : waitSet hw r mask fuel m = some m') : waitSet hw r mask fuel' m = some m' :=
  poll_mono hw r _ hr fuel fuel' hle m m' h

theorem I2C_Write_shape (hw : Feed) (fuel d : Nat) (m m' : Machine)
    (h : I2C_Write hw fuel d m = some m') :
    ∃ pre vT post vB,
      m'.trace = m.trace ++ (pre ++ [vT]).map (Access.rd I2C1_SR1)
        ++ [Access.wr I2C1_DR (d % 256)] ++ (post ++ [vB]).map (Access.rd I2C1_SR1) ∧
      (∀ v ∈ pre, v &&& (1 <<< 7) = 0) ∧ vT &&& (1 <<< 7) ≠ 0 ∧
      (∀ v ∈ post, v &&& (1 <<< 2) = 0) ∧ vB &&& (1 <<< 2) ≠ 0 ∧
      (pre ++ [vT]) ++ (post ++ [vB]) =
        (List.range (pre.length + 1 + (post.length + 1))).map
          (fun i => word (hw I2C1_SR1 (m.pos I2C1_SR1 + i))) ∧
      m'.regs = Function.update m.regs I2C1_DR (d % 256) := by
  rw [I2C_Write] at h
  cases h1 : waitSet hw I2C1_SR1 (1 <<< 7) fuel m with
  | none => rw [h1] at h; cases h
  | some m1 =>
    simp only [h1] at h
    obtain ⟨pre, vT, ht1, hvT, hpre, hf1, hr1, hp1⟩ :=
      waitSet_shape hw I2C1_SR1 _ rfl fuel m m1 h1
    obtain ⟨post, vB, ht2, hvB, hpost, hf2, hr2, hp2⟩ :=
      waitSet_shape hw I2C1_SR1 _ rfl fuel _ m' h
    have hd : word (d % 256) = d % 256 := word_of_lt (by omega)
    refine ⟨pre, vT, post, vB, ?_, hpre, hvT, hpost, hvB, ?_, ?_⟩
    · rw [ht2]; simp [wr, ht1, hd]
    · rw [List.range_add, List.map_append, ← hf1, hf2]
      congr 1
      simp only [wr, hp1, Function.update_same, List.map_map]
      apply List.map_congr_left
      intro i _
      simp [Nat.add_assoc]
    · rw [hr2]; simp [wr, hr1, hd]

theorem I2C_Address_shape (hw : Feed) (fuel A : Nat) (m m' : Machine)
    (h : I2C_Address hw fuel A m = some m') :
    ∃ vs v s1 s2,
      m'.trace = m.trace ++ [Access.wr I2C1_DR (A % 256)]
        ++ (vs ++ [v]).map (Access.rd I2C1_SR1)
        ++ [Access.rd I2C1_SR1 s1, Access.rd I2C1_SR2 s2] ∧
      (∀ x ∈ vs, x &&& (1 <<< 1) = 0) ∧ v &&& (1 <<< 1) ≠ 0 ∧
      m'.regs = Function.update m.regs I2C1_DR (A % 256) := by
  rw [I2C_Address] at h
  cases h1 : waitSet hw I2C1_SR1 (1 <<< 1) fuel (wr I2C1_DR (A % 256) m) with
  | none => rw [h1] at h; cases h
  | some m1 =>
    simp only [h1, Option.some.injEq] at h
    obtain ⟨vs, v, ht1, hv, hvs, -, hr1, -⟩ :=
      waitSet_shape hw I2C1_SR1 _ rfl fuel _ m1 h1
    have hd : word (A % 256) = A % 256 := word_of_lt (by omega)
    refine ⟨vs, v, word (hw I2C1_SR1 (m1.pos I2C1_SR1)),
      word (hw I2C1_SR2 (m1.pos I2C1_SR2)), ?_, hvs, hv, ?_⟩
    · rw [← h]
      simp [rd_status, Reg.isStatus, afterReads, ht1, wr, hd, List.range_succ]
    · rw [← h]
      simp [rd_status, Reg.isStatus, afterReads, hr1, wr, hd]

theorem I2C_Start_stmts (hw : Feed) (m : Machine) :
    execStmts hw [Stmt.orEq I2C1_CR1 (1 <<< 10), Stmt.orEq I2C1_CR1 (1 <<< 8)] m =
      { regs := Function.update m.regs I2C1_CR1
          (word (m.regs I2C1_CR1) ||| (1 <<< 10) ||| (1 <<< 8)),
        pos := m.pos,
        trace := m.trace ++
          [Access.rd I2C1_CR1 (word (m.regs I2C1_CR1)),
           Access.wr I2C1_CR1 (word (m.regs I2C1_CR1) ||| (1 <<< 10)),
           Access.rd I2C1_CR1 (word (m.regs I2C1_CR1) ||| (1 <<< 10)),
           Access.wr I2C1_CR1 (word (m.regs I2C1_CR1) ||| (1 <<< 10) ||| (1 <<< 8))] } := by
  have h10 : (1 <<< 10 : Nat) < 2 ^ 32 := by decide
  have h8 : (1 <<< 8 : Nat) < 2 ^ 32 := by decide
  have hw1 : word (word (m.regs I2C1_CR1) ||| 1 <<< 10) = word (m.regs I2C1_CR1) ||| 1 <<< 10 :=
    word_or _ _ h10
  simp only [execStmts]
  rw [execStmt_orEq hw I2C1_CR1 _ _ rfl h10, execStmt_orEq hw I2C1_CR1 _ _ rfl h8]
  simp only [Function.update_same, Function.update_idem, hw1, List.append_assoc,
    List.cons_append, List.nil_append]

theorem I2C_Start_shape (hw : Feed) (fuel : Nat) (m m' : Machine)
    (h : I2C_Start hw fuel m = some m') :
    ∃ vs v,
      m'.trace = m.trace ++
          [Access.rd I2C1_CR1 (word (m.regs I2C1_CR1)),
           Access.wr I2C1_CR1 (word (m.regs I2C1_CR1) ||| (1 <<< 10)),
           Access.rd I2C1_CR1 (word (m.regs I2C1_CR1) ||| (1 <<< 10)),
           Access.wr I2C1_CR1 (word (m.regs I2C1_CR1) ||| (1 <<< 10) ||| (1 <<< 8))]
        ++ (vs ++ [v]).map (Access.rd I2C1_SR1) ∧
      (∀ x ∈ vs, x &&& (1 <<< 0) = 0) ∧ v &&& (1 <<< 0) ≠ 0 ∧
      m'.regs = Function.update m.regs I2C1_CR1
        (word (m.regs I2C1_CR1) ||| (1 <<< 10) ||| (1 <<< 8)) := by
  rw [I2C_Start, I2C_Start_stmts] at h
  obtain ⟨vs, v, ht, hv, hvs, -, hr, -⟩ := waitSet_shape hw I2C1_SR1 _ rfl fuel _ m' h
  exact ⟨vs, v, ht, hvs, hv, hr⟩

theorem I2C_Stop_eq (hw : Feed) (m : Machine) :
    I2C_Stop hw m =
      { regs := Function.update m.regs I2C1_CR1 (word (m.regs I2C1_CR1) ||| (1 <<< 9)),
        pos := m.pos,
        trace := m.trace ++
          [Access.rd I2C1_CR1 (word (m.regs I2C1_CR1)),
           Access.wr I2C1_CR1 (word (m.regs I2C1_CR1) ||| (1 <<< 9))] } := by
  rw [I2C_Stop, execStmt_orEq hw I2C1_CR1 _ _ rfl (by decide)]

/-! ## Bit fields and `I2C_Config` -/

theorem bit_succ_div (v lo : Nat) : v / 2 ^ (lo + 1) = v / 2 ^ lo / 2 := by
  rw [Nat.pow_succ, Nat.div_div_eq_div_mul]

theorem field2_eq (v lo : Nat) :
    field v lo 2 = (if bit v (lo + 1) then 2 else 0) + (if bit v lo then 1 else 0) := by
  simp only [field, bit, Nat.testBit_to_div_mod, Nat.shiftRight_eq_div_pow, bit_succ_div,
    decide_eq_true_eq]
  generalize v / 2 ^ lo = q
  split_ifs <;> omega

theorem field4_eq (v lo : Nat) :
    field v lo 4 = (if bit v (lo + 3) then 8 else 0) + (if bit v (lo + 2) then 4 else 0)
      + (if bit v (lo + 1) then 2 else 0) + (if bit v lo then 1 else 0) := by
  have h2 : lo + 2 = (lo + 1) + 1 := rfl
  have h3 : lo + 3 = ((lo + 1) + 1) + 1 := rfl
  simp only [field, bit, Nat.testBit_to_div_mod, Nat.shiftRight_eq_div_pow, h2, h3, bit_succ_div,
    decide_eq_true_eq]
  generalize v / 2 ^ lo = q
  split_ifs <;> omega

theorem bit_word (v i : Nat) (hi : i < 32) : bit (word v) i = bit v i := by
  show Nat.testBit (v % 2 ^ 32) i = Nat.testBit v i
  rw [Nat.testBit_mod_two_pow]; simp [hi]

theorem bit_or (a b i : Nat) : bit (a ||| b) i = (bit a i || bit b i) := by
  simp [bit]

theorem bit_and (a b i : Nat) : bit (a &&& b) i = (bit a i && bit b i) := by
  simp [bit]

theorem bit_or_true (a c i : Nat) (h : bit c i = true) : bit (a ||| c) i = true := by
  rw [bit_or, h, Bool.or_true]

theorem bit_or_false (a c i : Nat) (h : bit c i = false) : bit (a ||| c) i = bit a i := by
  rw [bit_or, h, Bool.or_false]

theorem moder_field_lo (x : Nat) :
    field (word x ||| (2 <<< 16 ||| 2 <<< 18)) 16 2 = 2 ↔ bit x 16 = false := by
  simp (disch := decide) only [field2_eq, bit_or_true, bit_or_false, bit_word]
  cases bit x 16 <;> simp

theorem moder_field_hi (x : Nat) :
    field (word x ||| (2 <<< 16 ||| 2 <<< 18)) 18 2 = 2 ↔ bit x 18 = false := by
  simp (disch := decide) only [field2_eq, bit_or_true, bit_or_false, bit_word]
  cases bit x 18 <;> simp

theorem ospeedr_field_lo (x : Nat) :
    field (word x ||| (3 <<< 16 ||| 3 <<< 18)) 16 2 = 3 := by
  simp (disch := decide) only [field2_eq, bit_or_true, bit_or_false, bit_word]
  simp

theorem ospeedr_field_hi (x : Nat) :
    field (word x ||| (3 <<< 16 ||| 3 <<< 18)) 18 2 = 3 := by
  simp (disch := decide) only [field2_eq, bit_or_true, bit_or_false, bit_word]
  simp

theorem pupdr_field_lo (x : Nat) :
    field (word x ||| (1 <<< 16 ||| 1 <<< 18)) 16 2 = 1 ↔ bit x 17 = false := by
  simp (disch := decide) only [field2_eq, bit_or_true, bit_or_false, bit_word]
  cases bit x (16 + 1) <;> simp

theorem pupdr_field_hi (x : Nat) :
    field (word x ||| (1 <<< 16 ||| 1 <<< 18)) 18 2 = 1 ↔ bit x 19 = false := by
  simp (disch := decide) only [field2_eq, bit_or_true, bit_or_false, bit_word]
  cases bit x (18 + 1) <;> simp

theorem afr_field_lo (x : Nat) :
    field (word x ||| (4 <<< 0 ||| 4 <<< 4)) 0 4 = 4 ↔
      (bit x 0 = false ∧ bit x 1 = false ∧ bit x 3 = false) := by
  simp (disch := decide) only [field4_eq, bit_or_true, bit_or_false, bit_word]
  cases bit x 0 <;> cases bit x (0 + 1) <;> cases bit x (0 + 3) <;> simp

theorem afr_field_hi (x : Nat) :
    field (word x ||| (4 <<< 0 ||| 4 <<< 4)) 4 4 = 4 ↔
      (bit x 4 = false ∧ bit x 5 = false ∧ bit x 7 = false) := by
  simp (disch := decide) only [field4_eq, bit_or_true, bit_or_false, bit_word]
  cases bit x 4 <;> cases bit x (4 + 1) <;> cases bit x (4 + 3) <;> simp

theorem otyper_bits (x : Nat) :
    bit (word x ||| (1 <<< 8 ||| 1 <<< 9)) 8 = true ∧ bit (word x ||| (1 <<< 8 ||| 1 <<< 9)) 9 = true := by
  simp (disch := decide) only [bit_or_true, and_self]

theorem I2C_Config_at_pins (hw : Feed) (m : Machine) (k : Nat) (h7 : 7 ≤ k) (h13 : k ≤ 13) :
    pinsConfigured (I2C_Config_at hw k m).regs ↔ entryBitsClear m.regs := by
  interval_cases k <;>
  · simp (disch := decide) only [I2C_Config_at, I2C_Config_body, List.take, execStmts,
      execStmt_orEq, execStmt_andEq, execStmt_assign, Function.update_same,
      Function.update_noteq, ne_eq, not_false_eq_true, reduceCtorEq, pinsConfigured,
      entryBitsClear]
    simp only [moder_field_lo, moder_field_hi, ospeedr_field_lo, ospeedr_field_hi,
      pupdr_field_lo, pupdr_field_hi, afr_field_lo, afr_field_hi, otyper_bits]
    tauto

theorem field2_zero (v lo : Nat) (h : field v lo 2 = 0) :
    bit v lo = false ∧ bit v (lo + 1) = false := by
  rw [field2_eq] at h
  cases h0 : bit v lo <;> cases h1 : bit v (lo + 1) <;> simp [h0, h1] at h ⊢

theorem field4_zero (v lo : Nat) (h : field v lo 4 = 0) :
    bit v lo = false ∧ bit v (lo + 1) = false ∧ bit v (lo + 2) = false ∧
      bit v (lo + 3) = false := by
  rw [field4_eq] at h
  cases h0 : bit v lo <;> cases h1 : bit v (lo + 1) <;> cases h2 : bit v (lo + 2) <;>
    cases h3 : bit v (lo + 3) <;> simp [h0, h1, h2, h3] at h ⊢

theorem atReset_entryBitsClear (regs : Reg → Nat) (h : atReset regs) : entryBitsClear regs := by
  obtain ⟨-, -, hm1, hm2, -, -, -, -, hp1, hp2, ha1, ha2⟩ := h
  have a := field4_zero _ _ ha1
  have b := field4_zero _ _ ha2
  exact ⟨(field2_zero _ _ hm1).1, (field2_zero _ _ hm2).1, (field2_zero _ _ hp1).2,
    (field2_zero _ _ hp2).2, a.1, a.2.1, a.2.2.2, b.1, b.2.1, b.2.2.2⟩

theorem cr1_idem (a A N O : Nat) :
    ((((a ||| A) &&& N ||| O) ||| A) &&& N ||| O) = ((a ||| A) &&& N ||| O) := by
  apply Nat.eq_of_testBit_eq
  intro i
  simp only [Nat.testBit_or, Nat.testBit_and]
  cases Nat.testBit a i <;> cases Nat.testBit A i <;> cases Nat.testBit N i <;>
    cases Nat.testBit O i <;> rfl

theorem word_and_right (a c : Nat) (hc : c < 2 ^ 32) : word (a &&& c) = a &&& c :=
  word_of_lt (Nat.and_lt_two_pow _ hc)

theorem word_or_both (a c : Nat) (ha : a < 2 ^ 32) (hc : c < 2 ^ 32) : word (a ||| c) = a ||| c :=
  word_of_lt (Nat.or_lt_two_pow ha hc)

theorem or_idem (a c : Nat) : (a ||| c) ||| c = a ||| c := by
  rw [Nat.or_assoc, Nat.or_self]

theorem I2C_Config_regs_idem (hw : Feed) (m : Machine) :
    (I2C_Config hw (I2C_Config hw m)).regs = (I2C_Config hw m).regs := by
  have hN : not32 (1 <<< 15) < 2 ^ 32 := by decide
  have hZ : (word (m.regs I2C1_CR1) ||| 1 <<< 15) &&& not32 (1 <<< 15) ||| 1 <<< 0 < 2 ^ 32 :=
    Nat.or_lt_two_pow (Nat.and_lt_two_pow _ hN) (by decide)
  funext r
  cases r <;>
  simp (disch := decide) only [I2C_Config, I2C_Config_body, execStmts,
      execStmt_orEq, execStmt_andEq, execStmt_assign, Function.update_same,
      Function.update_noteq, ne_eq, not_false_eq_true, reduceCtorEq, word_or, or_idem]
  rw [word_and_right _ _ hN, word_and_right _ _ hN, word_or_both _ _ hZ (by decide), cr1_idem]

theorem I2C_Config_trace (hw : Feed) (m : Machine) :
    (I2C_Config hw m).trace = m.trace ++
      [ Access.rd RCC_APB1ENR (word (m.regs RCC_APB1ENR)),
        Access.wr RCC_APB1ENR (word (m.regs RCC_APB1ENR) ||| 1 <<< 21),
        Access.rd RCC_AHB1ENR (word (m.regs RCC_AHB1ENR)),
        Access.wr RCC_AHB1ENR (word (m.regs RCC_AHB1ENR) ||| 1 <<< 1),
        Access.rd GPIOB_MODER (word (m.regs GPIOB_MODER)),
        Access.wr GPIOB_MODER (word (m.regs GPIOB_MODER) ||| (2 <<< 16 ||| 2 <<< 18)),
        Access.rd GPIOB_OTYPER (word (m.regs GPIOB_OTYPER)),
        Access.wr GPIOB_OTYPER (word (m.regs GPIOB_OTYPER) ||| (1 <<< 8 ||| 1 <<< 9)),
        Access.rd GPIOB_OSPEEDR (word (m.regs GPIOB_OSPEEDR)),
        Access.wr GPIOB_OSPEEDR (word (m.regs GPIOB_OSPEEDR) ||| (3 <<< 16 ||| 3 <<< 18)),
        Access.rd GPIOB_PUPDR (word (m.regs GPIOB_PUPDR)),
        Access.wr GPIOB_PUPDR (word (m.regs GPIOB_PUPDR) ||| (1 <<< 16 ||| 1 <<< 18)),
        Access.rd GPIOB_AFR1 (word (m.regs GPIOB_AFR1)),
        Access.wr GPIOB_AFR1 (word (m.regs GPIOB_AFR1) ||| (4 <<< 0 ||| 4 <<< 4)),
        Access.rd I2C1_CR1 (word (m.regs I2C1_CR1)),
        Access.wr I2C1_CR1 (word (m.regs I2C1_CR1) ||| 1 <<< 15),
        Access.rd I2C1_CR1 (word (m.regs I2C1_CR1) ||| 1 <<< 15),
        Access.wr I2C1_CR1 ((word (m.regs I2C1_CR1) ||| 1 <<< 15) &&& not32 (1 <<< 15)),
        Access.rd I2C1_CR2 (word (m.regs I2C1_CR2)),
        Access.wr I2C1_CR2 (word (m.regs I2C1_CR2) ||| 45 <<< 0),
        Access.wr I2C1_CCR 225,
        Access.wr I2C1_TRISE 46,
        Access.rd I2C1_CR1 ((word (m.regs I2C1_CR1) ||| 1 <<< 15) &&& not32 (1 <<< 15)),
        Access.wr I2C1_CR1
          ((word (m.regs I2C1_CR1) ||| 1 <<< 15) &&& not32 (1 <<< 15) ||| 1 <<< 0) ] := by
  have hN : not32 (1 <<< 15) < 2 ^ 32 := by decide
  have h1 : word (word (m.regs I2C1_CR1) ||| 1 <<< 15) = word (m.regs I2C1_CR1) ||| 1 <<< 15 :=
    word_or _ _ (by decide)
  have h2 : word ((word (m.regs I2C1_CR1) ||| 1 <<< 15) &&& not32 (1 <<< 15))
      = (word (m.regs I2C1_CR1) ||| 1 <<< 15) &&& not32 (1 <<< 15) := word_and_right _ _ hN
  simp (disch := decide) only [I2C_Config, I2C_Config_body, execStmts,
      execStmt_orEq, execStmt_andEq, execStmt_assign, Function.update_same,
      Function.update_noteq, ne_eq, not_false_eq_true, reduceCtorEq, List.append_assoc,
      List.cons_append, List.nil_append, h1, h2, Nat.shiftLeft_zero]

theorem I2C_Config_writes (hw : Feed) (m : Machine) :
    writesOf (I2C_Config hw m).trace = writesOf m.trace ++
      [ (RCC_APB1ENR, word (m.regs RCC_APB1ENR) ||| 1 <<< 21),
        (RCC_AHB1ENR, word (m.regs RCC_AHB1ENR) ||| 1 <<< 1),
        (GPIOB_MODER, word (m.regs GPIOB_MODER) ||| (2 <<< 16 ||| 2 <<< 18)),
        (GPIOB_OTYPER, word (m.regs GPIOB_OTYPER) ||| (1 <<< 8 ||| 1 <<< 9)),
        (GPIOB_OSPEEDR, word (m.regs GPIOB_OSPEEDR) ||| (3 <<< 16 ||| 3 <<< 18)),
        (GPIOB_PUPDR, word (m.regs GPIOB_PUPDR) ||| (1 <<< 16 ||| 1 <<< 18)),
        (GPIOB_AFR1, word (m.regs GPIOB_AFR1) ||| (4 <<< 0 ||| 4 <<< 4)),
        (I2C1_CR1, word (m.regs I2C1_CR1) ||| 1 <<< 15),
        (I2C1_CR1, (word (m.regs I2C1_CR1) ||| 1 <<< 15) &&& not32 (1 <<< 15)),
        (I2C1_CR2, word (m.regs I2C1_CR2) ||| 45 <<< 0),
        (I2C1_CCR, 225),
        (I2C1_TRISE, 46),
        (I2C1_CR1, (word (m.regs I2C1_CR1) ||| 1 <<< 15) &&& not32 (1 <<< 15) ||| 1 <<< 0) ] := by
  rw [I2C_Config_trace, writesOf_append]
  rfl

theorem I2C_Config_last (hw : Feed) (m : Machine) :
    (I2C_Config hw m).trace.getLast? = some (Access.wr I2C1_CR1
      ((word (m.regs I2C1_CR1) ||| 1 <<< 15) &&& not32 (1 <<< 15) ||| 1 <<< 0)) := by
  rw [I2C_Config_trace]
  simp

theorem I2C_Config_at_CR1 (hw : Feed) (m : Machine) (k : Nat) (h9 : 9 ≤ k) (h12 : k ≤ 12) :
    (I2C_Config_at hw k m).regs I2C1_CR1 =
      (word (m.regs I2C1_CR1) ||| 1 <<< 15) &&& not32 (1 <<< 15) := by
  have h1 : word (word (m.regs I2C1_CR1) ||| 1 <<< 15) = word (m.regs I2C1_CR1) ||| 1 <<< 15 :=
    word_or _ _ (by decide)
  interval_cases k <;>
  simp (disch := decide) only [I2C_Config_at, I2C_Config_body, List.take, execStmts,
    execStmt_orEq, execStmt_andEq, execStmt_assign, Function.update_same,
    Function.update_noteq, ne_eq, not_false_eq_true, reduceCtorEq, h1]

/-! ## The delay service -/

theorem Delay_ms_loop_eq (hw : Feed) (fuel ms : Nat) (hms : ms < 65536) (d : Nat) :
    ∀ (i : Nat) (m : Machine), i + d = ms →
      Delay_ms_loop hw fuel ms hms i m = repeatCall (Delay_us hw fuel 1000) d m := by
  induction d with
  | zero =>
    intro i m h
    rw [Delay_ms_loop, if_neg (by omega)]
    rfl
  | succ d ih =>
    intro i m h
    rw [Delay_ms_loop, if_pos (by omega), repeatCall]
    cases h1 : Delay_us hw fuel 1000 m with
    | none => rfl
    | some m1 =>
      have hi : (i + 1) % 65536 = i + 1 := Nat.mod_eq_of_lt (by omega)
      simp only [hi]
      exact ih (i + 1) m1 (by omega)

theorem Delay_ms_eq (hw : Feed) (fuel n : Nat) (m : Machine) :
    Delay_ms hw fuel n m = repeatCall (Delay_us hw fuel 1000) (n % 65536) m := by
  rw [Delay_ms]
  exact Delay_ms_loop_eq hw fuel _ _ _ 0 m (by omega)

theorem Delay_us_shape (hw : Feed) (fuel us : Nat) (m m' : Machine)
    (h : Delay_us hw fuel us m = some m') :
    ∃ vs v, m'.trace = m.trace ++ [Access.wr TIM6_CNT 0] ++ (vs ++ [v]).map (Access.rd TIM6_CNT) ∧
      (∀ x ∈ vs, x < us % 65536) ∧ us % 65536 ≤ v := by
  rw [Delay_us, waitCnt] at h
  obtain ⟨vs, v, ht, hv, hvs, -, -, -⟩ := poll_shape hw TIM6_CNT _ rfl fuel _ m' h
  refine ⟨vs, v, ?_, ?_, ?_⟩
  · rw [ht]; rfl
  · intro x hx
    simpa using hvs x hx
  · simpa using hv

theorem Delay_us_writes (hw : Feed) (fuel us : Nat) (m m' : Machine)
    (h : Delay_us hw fuel us m = some m') :
    writesOf m'.trace = writesOf m.trace ++ [(TIM6_CNT, 0)] := by
  obtain ⟨vs, v, ht, -, -⟩ := Delay_us_shape hw fuel us m m' h
  rw [ht]
  simp [writesOf_append, writesOf_reads, writesOf]

theorem repeatCall_writes (hw : Feed) (fuel us : Nat) (n : Nat) :
    ∀ (m m' : Machine), repeatCall (Delay_us hw fuel us) n m = some m' →
      writesOf m'.trace = writesOf m.trace ++ List.replicate n (TIM6_CNT, 0) := by
  induction n with
  | zero =>
    intro m m' h
    simp only [repeatCall, Option.some.injEq] at h
    simp [h]
  | succ n ih =>
    intro m m' h
    rw [repeatCall] at h
    cases h1 : Delay_us hw fuel us m with
    | none => rw [h1] at h; cases h
    | some m1 =>
      rw [h1] at h
      rw [ih m1 m' h, Delay_us_writes hw fuel us m m1 h1, List.replicate_succ]
      simp

theorem repeatCall_isSome (f : Machine → Option Machine)
    (hf : ∀ m, (f m).isSome = true) (n : Nat) :
    ∀ m, (repeatCall f n m).isSome = true := by
  induction n with
  | zero => intro m; rfl
  | succ n ih =>
    intro m
    rw [repeatCall]
    obtain ⟨m1, h1⟩ := Option.isSome_iff_exists.mp (hf m)
    rw [h1]
    exact ih m1

theorem timer_reach (hw : Feed) (p : Nat) (ht : TimerModel hw p) :
    ∀ t, t ≤ 65535 → ∃ k, hw TIM6_CNT (p + k) = t ∧
      (∀ i, i < k → hw TIM6_CNT (p + i) < t) ∧
      (∀ i, i < k → hw TIM6_CNT (p + i) ≤ hw TIM6_CNT (p + i + 1)) := by
  obtain ⟨h0, hstep, hlive⟩ := ht
  intro t
  induction t with
  | zero =>
    intro _
    exact ⟨0, by simpa using h0, by intro i hi; omega, by intro i hi; omega⟩
  | succ t ih =>
    intro hle
    obtain ⟨k, hk, hlt, hmono⟩ := ih (by omega)
    have hex : ∃ d, hw TIM6_CNT (p + k + 1 + d) ≠ t := by
      obtain ⟨j, hj, hne⟩ := hlive (p + k) (by omega)
      refine ⟨j - (p + k + 1), ?_⟩
      rw [hk] at hne
      have e : p + k + 1 + (j - (p + k + 1)) = j := by omega
      rw [e]; exact hne
    have hd0 : hw TIM6_CNT (p + k + 1 + Nat.find hex) ≠ t := Nat.find_spec hex
    have hbefore : ∀ d, d < Nat.find hex → hw TIM6_CNT (p + k + 1 + d) = t := by
      intro d hd
      have := Nat.find_min hex hd
      simpa using this
    generalize Nat.find hex = d0 at hd0 hbefore
    have hall : ∀ e, e ≤ d0 → hw TIM6_CNT (p + k + e) = t := by
      intro e he
      cases e with
      | zero => simpa using hk
      | succ e' =>
        have := hbefore e' (by omega)
        rw [← this]; congr 1; omega
    have hs := hstep (p + k + d0) (by omega)
    rw [hall d0 (le_refl _)] at hs
    have hval : hw TIM6_CNT (p + k + d0 + 1) = t + 1 := by
      rcases hs with hs | hs
      · exfalso
        apply hd0
        rw [← hs]; congr 1; omega
      · rw [hs]; exact Nat.mod_eq_of_lt (by omega)
    have hmid : ∀ i, k ≤ i → i ≤ k + d0 → hw TIM6_CNT (p + i) = t := by
      intro i h1 h2
      have := hall (i - k) (by omega)
      rw [← this]; congr 1; omega
    refine ⟨k + d0 + 1, ?_, ?_, ?_⟩
    · rw [← hval]; congr 1; omega
    · intro i hi
      by_cases hik : i < k
      · exact Nat.lt_succ_of_lt (hlt i hik)
      · rw [hmid i (by omega) (by omega)]; omega
    · intro i hi
      by_cases hik : i < k
      · exact hmono i hik
      · rw [hmid i (by omega) (by omega)]
        by_cases hlast : i = k + d0
        · have e : p + i + 1 = p + k + d0 + 1 := by omega
          rw [e, hval]; omega
        · have e : p + i + 1 = p + (i + 1) := by omega
          rw [e, hmid (i + 1) (by omega) (by omega)]

theorem timer_slow (hw : Feed) (p : Nat) (ht : TimerModel hw p) :
    ∀ i, hw TIM6_CNT (p + i) ≤ i := by
  obtain ⟨h0, hstep, -⟩ := ht
  intro i
  induction i with
  | zero => simp [h0]
  | succ i ih =>
    have e : p + (i + 1) = p + i + 1 := by omega
    rw [e]
    rcases hstep (p + i) (by omega) with h | h
    · rw [h]; omega
    · rw [h]
      have := Nat.mod_le (hw TIM6_CNT (p + i) + 1) 65536
      omega

/-! ## Sequencing, bounds and the loop of `main` -/

theorem seq_mono {α β γ : Type} (f : Nat → α → Option β) (g : Nat → β → Option γ)
    (hf : Mono f) (hg : Mono g) : Mono (seq f g) := by
  intro fuel fuel' a c hle h
  simp only [seq] at h ⊢
  cases h1 : f fuel a with
  | none => rw [h1] at h; cases h
  | some b =>
    rw [h1] at h
    rw [hf fuel fuel' a b hle h1]
    exact hg fuel fuel' b c hle h

theorem seq_total {α β γ : Type} (f : Nat → α → Option β) (g : Nat → β → Option γ)
    (hf : Mono f) (hg : Mono g) (tf : Total f) (tg : Total g) : Total (seq f g) := by
  intro a
  obtain ⟨n1, b, h1⟩ := tf a
  obtain ⟨n2, c, h2⟩ := tg b
  refine ⟨max n1 n2, c, ?_⟩
  simp only [seq]
  rw [hf n1 _ a b (le_max_left _ _) h1]
  exact hg n2 _ b c (le_max_right _ _) h2

theorem step_mono {α β : Type} (h : α → β) : Mono (step h) := by
  intro fuel fuel' a b _ hab
  exact hab

theorem step_total {α β : Type} (h : α → β) : Total (step h) :=
  fun a => ⟨0, h a, rfl⟩

theorem waitSet_Mono (hw : Feed) (r : Reg) (mask : Nat) (hr : r.isStatus = true) :
    Mono (waitSet hw r mask) :=
  fun fuel fuel' a b hle h => waitSet_mono hw r mask hr fuel fuel' hle a b h

theorem waitSet_Total (hw : Feed) (r : Reg) (mask : Nat) (hr : r.isStatus = true)
    (hl : FlagLive hw r mask) : Total (waitSet hw r mask) :=
  fun a => waitSet_returns hw r mask hr a (hl (a.pos r))

theorem waitCnt_Mono (hw : Feed) (us : Nat) : Mono (waitCnt hw us) :=
  fun fuel fuel' a b hle h => poll_mono hw TIM6_CNT _ rfl fuel fuel' hle a b h

theorem waitCnt_Total (hw : Feed) (us : Nat)
    (hl : ∀ p, ∃ j, p ≤ j ∧ us ≤ word (hw TIM6_CNT j)) : Total (waitCnt hw us) := by
  intro a
  apply poll_returns hw TIM6_CNT _ rfl a
  obtain ⟨j, hj, hv⟩ := hl (a.pos TIM6_CNT)
  exact ⟨j, hj, by simpa using hv⟩

theorem TIM6Config_seq (hw : Feed) :
    (fun fuel m => TIM6Config hw fuel m) =
      seq (step (execStmts hw TIM6Config_body)) (waitSet hw TIM6_SR (1 <<< 0)) := rfl

theorem I2C_Start_seq (hw : Feed) :
    (fun fuel m => I2C_Start hw fuel m) =
      seq (step (execStmts hw
        [Stmt.orEq I2C1_CR1 (1 <<< 10), Stmt.orEq I2C1_CR1 (1 <<< 8)]))
        (waitSet hw I2C1_SR1 (1 <<< 0)) := rfl

theorem I2C_Address_seq (hw : Feed) (A : Nat) :
    (fun fuel m => I2C_Address hw fuel A m) =
      seq (step (wr I2C1_DR (A % 256)))
        (seq (waitSet hw I2C1_SR1 (1 <<< 1))
          (step (fun m1 => (rd hw I2C1_SR2 (rd hw I2C1_SR1 m1).2).2))) := by
  funext fuel m
  simp only [I2C_Address, seq, step, Option.some_bind]
  cases waitSet hw I2C1_SR1 (1 <<< 1) fuel (wr I2C1_DR (A % 256) m) <;> rfl

theorem I2C_Write_seq (hw : Feed) (d : Nat) :
    (fun fuel m => I2C_Write hw fuel d m) =
      seq (waitSet hw I2C1_SR1 (1 <<< 7))
        (seq (step (wr I2C1_DR (d % 256))) (waitSet hw I2C1_SR1 (1 <<< 2))) := by
  funext fuel m
  simp only [I2C_Write, seq, step]
  cases waitSet hw I2C1_SR1 (1 <<< 7) fuel m <;> rfl

theorem Delay_us_seq (hw : Feed) (us : Nat) :
    (fun fuel m => Delay_us hw fuel us m) =
      seq (step (wr TIM6_CNT 0)) (waitCnt hw (us % 65536)) := rfl

theorem repeatCall_succ_seq (f : Nat → Machine → Option Machine) (n : Nat) :
    (fun fuel m => repeatCall (f fuel) (n + 1) m) =
      seq f (fun fuel m => repeatCall (f fuel) n m) := by
  funext fuel m
  simp only [repeatCall, seq]
  cases f fuel m <;> rfl

theorem repeatCall_Mono (f : Nat → Machine → Option Machine) (hf : Mono f) (n : Nat) :
    Mono (fun fuel m => repeatCall (f fuel) n m) := by
  induction n with
  | zero => intro fuel fuel' a b _ h; exact h
  | succ n ih => rw [repeatCall_succ_seq]; exact seq_mono _ _ hf ih

theorem repeatCall_Total (f : Nat → Machine → Option Machine) (hf : Mono f) (tf : Total f)
    (n : Nat) : Total (fun fuel m => repeatCall (f fuel) n m) := by
  induction n with
  | zero => intro a; exact ⟨0, a, rfl⟩
  | succ n ih =>
    rw [repeatCall_succ_seq]
    exact seq_total _ _ hf (repeatCall_Mono f hf n) tf ih

theorem Delay_ms_seq (hw : Feed) (n : Nat) :
    (fun fuel m => Delay_ms hw fuel n m) =
      (fun fuel m => repeatCall ((fun fuel m => Delay_us hw fuel 1000 m) fuel) (n % 65536) m) := by
  funext fuel m
  exact Delay_ms_eq hw fuel n m

theorem main_body_seq (hw : Feed) (dec : Nat) :
    (fun fuel m => main_body hw fuel dec m) =
      seq (fun fuel m => I2C_Start hw fuel m)
        (seq (fun fuel m => I2C_Address hw fuel 0x40 m)
          (seq (fun fuel m => I2C_Write hw fuel dec m)
            (seq (step (I2C_Stop hw))
              (seq (fun fuel m => Delay_ms hw fuel 100 m)
                (step (fun m4 => ((dec + 0x1) % 256, m4))))))) := by
  funext fuel m
  simp only [main_body, seq, step, Option.some_bind]
  cases I2C_Start hw fuel m with
  | none => rfl
  | some m1 =>
    simp only [Option.some_bind]
    cases I2C_Address hw fuel 0x40 m1 with
    | none => rfl
    | some m2 =>
      simp only [Option.some_bind]
      cases I2C_Write hw fuel dec m2 with
      | none => rfl
      | some m3 =>
        simp only [Option.some_bind]
        cases Delay_ms hw fuel 100 (I2C_Stop hw m3) <;> rfl

theorem main_loop_succ_seq (hw : Feed) (n : Nat) :
    (fun fuel s => main_loop hw fuel (n + 1) s) =
      seq (fun fuel s => main_loop hw fuel n s)
        (fun fuel s1 => main_body hw fuel s1.1 s1.2) := by
  funext fuel s
  simp only [main_loop, seq]
  cases main_loop hw fuel n s <;> rfl

theorem main_seq (hw : Feed) (n : Nat) :
    (fun fuel m => main hw fuel n m) =
      seq (step (I2C_Config hw))
        (seq (fun fuel m => TIM6Config hw fuel m)
          (seq (step (fun m1 => ((0x0 : Nat), m1))) (fun fuel s => main_loop hw fuel n s))) := by
  funext fuel m
  simp only [main, seq, step, Option.some_bind]
  cases TIM6Config hw fuel (I2C_Config hw m) <;> rfl

theorem I2C_Start_Mono (hw : Feed) : Mono (fun fuel m => I2C_Start hw fuel m) := by
  rw [I2C_Start_seq]
  exact seq_mono _ _ (step_mono _) (waitSet_Mono hw _ _ rfl)

theorem I2C_Address_Mono (hw : Feed) (A : Nat) :
    Mono (fun fuel m => I2C_Address hw fuel A m) := by
  rw [I2C_Address_seq]
  exact seq_mono _ _ (step_mono _) (seq_mono _ _ (waitSet_Mono hw _ _ rfl) (step_mono _))

theorem I2C_Write_Mono (hw : Feed) (d : Nat) : Mono (fun fuel m => I2C_Write hw fuel d m) := by
  rw [I2C_Write_seq]
  exact seq_mono _ _ (waitSet_Mono hw _ _ rfl)
    (seq_mono _ _ (step_mono _) (waitSet_Mono hw _ _ rfl))

theorem Delay_us_Mono (hw : Feed) (us : Nat) : Mono (fun fuel m => Delay_us hw fuel us m) := by
  rw [Delay_us_seq]
  exact seq_mono _ _ (step_mono _) (waitCnt_Mono hw _)

theorem Delay_ms_Mono (hw : Feed) (n : Nat) : Mono (fun fuel m => Delay_ms hw fuel n m) := by
  rw [Delay_ms_seq]
  exact repeatCall_Mono _ (Delay_us_Mono hw 1000) _

theorem TIM6Config_Mono (hw : Feed) : Mono (fun fuel m => TIM6Config hw fuel m) := by
  rw [TIM6Config_seq]
  exact seq_mono _ _ (step_mono _) (waitSet_Mono hw _ _ rfl)

theorem main_body_Mono (hw : Feed) (dec : Nat) :
    Mono (fun fuel m => main_body hw fuel dec m) := by
  rw [main_body_seq]
  exact seq_mono _ _ (I2C_Start_Mono hw) (seq_mono _ _ (I2C_Address_Mono hw _)
    (seq_mono _ _ (I2C_Write_Mono hw _) (seq_mono _ _ (step_mono _)
      (seq_mono _ _ (Delay_ms_Mono hw _) (step_mono _)))))

theorem main_body_pair_Mono (hw : Feed) :
    Mono (fun fuel (s : Nat × Machine) => main_body hw fuel s.1 s.2) :=
  fun fuel fuel' a b hle h => main_body_Mono hw a.1 fuel fuel' a.2 b hle h

theorem main_loop_Mono (hw : Feed) (n : Nat) :
    Mono (fun fuel s => main_loop hw fuel n s) := by
  induction n with
  | zero => intro fuel fuel' a b _ h; exact h
  | succ n ih =>
    rw [main_loop_succ_seq]
    exact seq_mono _ _ ih (main_body_pair_Mono hw)

theorem I2C_Start_Total (hw : Feed) (hl : FlagsLive hw) :
    Total (fun fuel m => I2C_Start hw fuel m) := by
  rw [I2C_Start_seq]
  exact seq_total _ _ (step_mono _) (waitSet_Mono hw _ _ rfl) (step_total _)
    (waitSet_Total hw _ _ rfl hl.2.1)

theorem I2C_Address_Total (hw : Feed) (hl : FlagsLive hw) (A : Nat) :
    Total (fun fuel m => I2C_Address hw fuel A m) := by
  rw [I2C_Address_seq]
  exact seq_total _ _ (step_mono _) (seq_mono _ _ (waitSet_Mono hw _ _ rfl) (step_mono _))
    (step_total _)
    (seq_total _ _ (waitSet_Mono hw _ _ rfl) (step_mono _)
      (waitSet_Total hw _ _ rfl hl.2.2.1) (step_total _))

theorem I2C_Write_Total (hw : Feed) (hl : FlagsLive hw) (d : Nat) :
    Total (fun fuel m => I2C_Write hw fuel d m) := by
  rw [I2C_Write_seq]
  exact seq_total _ _ (waitSet_Mono hw _ _ rfl)
    (seq_mono _ _ (step_mono _) (waitSet_Mono hw _ _ rfl))
    (waitSet_Total hw _ _ rfl hl.2.2.2.1)
    (seq_total _ _ (step_mono _) (waitSet_Mono hw _ _ rfl) (step_total _)
      (waitSet_Total hw _ _ rfl hl.2.2.2.2))

theorem Delay_us_Total (hw : Feed) (hl : TimerLive hw) :
    Total (fun fuel m => Delay_us hw fuel 1000 m) := by
  rw [Delay_us_seq]
  exact seq_total _ _ (step_mono _) (waitCnt_Mono hw _) (step_total _)
    (waitCnt_Total hw _ hl)

theorem Delay_ms_Total (hw : Feed) (hl : TimerLive hw) (n : Nat) :
    Total (fun fuel m => Delay_ms hw fuel n m) := by
  rw [Delay_ms_seq]
  exact repeatCall_Total _ (Delay_us_Mono hw 1000) (Delay_us_Total hw hl) _

theorem TIM6Config_Total (hw : Feed) (hl : FlagsLive hw) :
    Total (fun fuel m => TIM6Config hw fuel m) := by
  rw [TIM6Config_seq]
  exact seq_total _ _ (step_mono _) (waitSet_Mono hw _ _ rfl) (step_total _)
    (waitSet_Total hw _ _ rfl hl.1)

theorem main_body_Total (hw : Feed) (hl : Live hw) (dec : Nat) :
    Total (fun fuel m => main_body hw fuel dec m) := by
  rw [main_body_seq]
  have m5 : Mono (seq (fun fuel m => Delay_ms hw fuel 100 m)
      (step (fun m4 => ((dec + 0x1) % 256, m4)))) :=
    seq_mono _ _ (Delay_ms_Mono hw _) (step_mono _)
  have m4 := seq_mono _ _ (step_mono (I2C_Stop hw)) m5
  have m3 := seq_mono _ _ (I2C_Write_Mono hw dec) m4
  have m2 := seq_mono _ _ (I2C_Address_Mono hw 0x40) m3
  have t5 : Total (seq (fun fuel m => Delay_ms hw fuel 100 m)
      (step (fun m4 => ((dec + 0x1) % 256, m4)))) :=
    seq_total _ _ (Delay_ms_Mono hw _) (step_mono _) (Delay_ms_Total hw hl.2 _) (step_total _)
  have t4 := seq_total _ _ (step_mono (I2C_Stop hw)) m5 (step_total _) t5
  have t3 := seq_total _ _ (I2C_Write_Mono hw dec) m4 (I2C_Write_Total hw hl.1 dec) t4
  have t2 := seq_total _ _ (I2C_Address_Mono hw 0x40) m3 (I2C_Address_Total hw hl.1 0x40) t3
  exact seq_total _ _ (I2C_Start_Mono hw) m2 (I2C_Start_Total hw hl.1) t2

theorem main_loop_Total (hw : Feed) (hl : Live hw) (n : Nat) :
    Total (fun fuel s => main_loop hw fuel n s) := by
  induction n with
  | zero => intro a; exact ⟨0, a, rfl⟩
  | succ n ih =>
    rw [main_loop_succ_seq]
    exact seq_total _ _ (main_loop_Mono hw n) (main_body_pair_Mono hw) ih
      (fun a => main_body_Total hw hl a.1 a.2)

theorem main_Total (hw : Feed) (hl : Live hw) (n : Nat) :
    Total (fun fuel m => main hw fuel n m) := by
  rw [main_seq]
  have m3 : Mono (seq (step (fun m1 => ((0x0 : Nat), m1)))
      (fun fuel s => main_loop hw fuel n s)) := seq_mono _ _ (step_mono _) (main_loop_Mono hw n)
  have t3 : Total (seq (step (fun m1 => ((0x0 : Nat), m1)))
      (fun fuel s => main_loop hw fuel n s)) :=
    seq_total _ _ (step_mono _) (main_loop_Mono hw n) (step_total _) (main_loop_Total hw hl n)
  exact seq_total _ _ (step_mono _) (seq_mono _ _ (TIM6Config_Mono hw) m3) (step_total _)
    (seq_total _ _ (TIM6Config_Mono hw) m3 (TIM6Config_Total hw hl.1) t3)

theorem Performs_refl (m : Machine) : Performs m m [] :=
  ⟨[], by simp, rfl⟩

theorem Performs_trans {a b c : Machine} {x y : List Nat}
    (h1 : Performs a b x) (h2 : Performs b c y) : Performs a c (x ++ y) := by
  obtain ⟨t1, e1, w1⟩ := h1
  obtain ⟨t2, e2, w2⟩ := h2
  exact ⟨t1 ++ t2, by rw [e2, e1, List.append_assoc], by rw [drWrites_append, w1, w2]⟩

theorem Performs_drWrites {a b : Machine} {x : List Nat} (h : Performs a b x) :
    drWrites b.trace = drWrites a.trace ++ x := by
  obtain ⟨t, e, w⟩ := h
  rw [e, drWrites_append, w]

theorem I2C_Start_performs (hw : Feed) (fuel : Nat) (m m' : Machine)
    (h : I2C_Start hw fuel m = some m') : Performs m m' [] := by
  obtain ⟨vs, v, ht, -, -, -⟩ := I2C_Start_shape hw fuel m m' h
  refine ⟨_, by rw [ht, List.append_assoc], ?_⟩
  simp [drWrites_append, drWrites_reads, drWrites]

theorem I2C_Address_performs (hw : Feed) (fuel A : Nat) (m m' : Machine)
    (h : I2C_Address hw fuel A m = some m') : Performs m m' [A % 256] := by
  obtain ⟨vs, v, s1, s2, ht, -, -, -⟩ := I2C_Address_shape hw fuel A m m' h
  refine ⟨_, by rw [ht, List.append_assoc, List.append_assoc], ?_⟩
  simp [drWrites_append, drWrites_reads, drWrites]

theorem I2C_Write_performs (hw : Feed) (fuel d : Nat) (m m' : Machine)
    (h : I2C_Write hw fuel d m = some m') : Performs m m' [d % 256] := by
  obtain ⟨pre, vT, post, vB, ht, -⟩ := I2C_Write_shape hw fuel d m m' h
  refine ⟨_, by rw [ht, List.append_assoc, List.append_assoc], ?_⟩
  simp [drWrites_append, drWrites_reads, drWrites]

theorem I2C_Stop_performs (hw : Feed) (m : Machine) : Performs m (I2C_Stop hw m) [] := by
  rw [I2C_Stop_eq]
  exact ⟨_, rfl, by simp [drWrites]⟩

theorem Delay_us_performs (hw : Feed) (fuel us : Nat) (m m' : Machine)
    (h : Delay_us hw fuel us m = some m') : Performs m m' [] := by
  obtain ⟨vs, v, ht, -, -⟩ := Delay_us_shape hw fuel us m m' h
  refine ⟨_, by rw [ht, List.append_assoc], ?_⟩
  simp [drWrites_append, drWrites_reads, drWrites]

theorem repeatCall_performs (hw : Feed) (fuel us : Nat) (n : Nat) :
    ∀ (m m' : Machine), repeatCall (Delay_us hw fuel us) n m = some m' → Performs m m' [] := by
  induction n with
  | zero =>
    intro m m' h
    simp only [repeatCall, Option.some.injEq] at h
    rw [← h]; exact Performs_refl m
  | succ n ih =>
    intro m m' h
    rw [repeatCall] at h
    cases h1 : Delay_us hw fuel us m with
    | none => rw [h1] at h; cases h
    | some m1 =>
      rw [h1] at h
      exact Performs_trans (Delay_us_performs hw fuel us m m1 h1) (ih m1 m' h)

theorem Delay_ms_performs (hw : Feed) (fuel n : Nat) (m m' : Machine)
    (h : Delay_ms hw fuel n m = some m') : Performs m m' [] := by
  rw [Delay_ms_eq] at h
  exact repeatCall_performs hw fuel 1000 _ m m' h

theorem I2C_Config_performs (hw : Feed) (m : Machine) : Performs m (I2C_Config hw m) [] :=
  ⟨_, I2C_Config_trace hw m, by simp [drWrites]⟩

theorem TIM6Config_performs (hw : Feed) (fuel : Nat) (m m' : Machine)
    (h : TIM6Config hw fuel m = some m') : Performs m m' [] := by
  rw [TIM6Config] at h
  obtain ⟨vs, v, ht, -, -, -, -, -⟩ := waitSet_shape hw TIM6_SR _ rfl fuel _ m' h
  have hb : Performs m (execStmts hw TIM6Config_body m) [] := by
    refine ⟨[Access.rd RCC_APB1ENR (word (m.regs RCC_APB1ENR)),
      Access.wr RCC_APB1ENR (word (m.regs RCC_APB1ENR) ||| 1 <<< 4),
      Access.wr TIM6_PSC (180 - 1), Access.wr TIM6_ARR 0xffff,
      Access.rd TIM6_CR1 (word (m.regs TIM6_CR1)),
      Access.wr TIM6_CR1 (word (m.regs TIM6_CR1) ||| 1 <<< 0)], ?_, by simp [drWrites]⟩
    simp (disch := decide) only [TIM6Config_body, execStmts,
      execStmt_orEq, execStmt_assign, Function.update_same,
      Function.update_noteq, ne_eq, not_false_eq_true, reduceCtorEq, List.append_assoc,
      List.cons_append, List.nil_append]
  have hp : Performs (execStmts hw TIM6Config_body m) m' [] :=
    ⟨_, ht, drWrites_reads _ _⟩
  exact Performs_trans hb hp

theorem main_body_performs (hw : Feed) (fuel dec : Nat) (m : Machine) (s : Nat × Machine)
    (h : main_body hw fuel dec m = some s) :
    s.1 = (dec + 1) % 256 ∧ Performs m s.2 [0x40, dec % 256] := by
  rw [main_body] at h
  cases h1 : I2C_Start hw fuel m with
  | none => rw [h1] at h; cases h
  | some m1 =>
    rw [h1] at h
    simp only at h
    cases h2 : I2C_Address hw fuel 0x40 m1 with
    | none => rw [h2] at h; cases h
    | some m2 =>
      rw [h2] at h
      simp only at h
      cases h3 : I2C_Write hw fuel dec m2 with
      | none => rw [h3] at h; cases h
      | some m3 =>
        rw [h3] at h
        simp only at h
        cases h4 : Delay_ms hw fuel 100 (I2C_Stop hw m3) with
        | none => rw [h4] at h; cases h
        | some m4 =>
          rw [h4] at h
          simp only [Option.some.injEq] at h
          rw [← h]
          refine ⟨rfl, ?_⟩
          have p1 := I2C_Start_performs hw fuel m m1 h1
          have p2 := I2C_Address_performs hw fuel _ m1 m2 h2
          have p3 := I2C_Write_performs hw fuel dec m2 m3 h3
          have p4 := I2C_Stop_performs hw m3
          have p5 := Delay_ms_performs hw fuel 100 _ m4 h4
          have := Performs_trans p1 (Performs_trans p2 (Performs_trans p3
            (Performs_trans p4 p5)))
          simpa using this

theorem main_succ (hw : Feed) (fuel k : Nat) (m : Machine) :
    main hw fuel (k + 1) m = (main hw fuel k m).bind (fun s => main_body hw fuel s.1 s.2) := by
  simp only [main]
  cases TIM6Config hw fuel (I2C_Config hw m) with
  | none => rfl
  | some m1 =>
    simp only [main_loop]
    cases main_loop hw fuel k (0x0, m1) <;> rfl

theorem main_loop_performs (hw : Feed) (fuel : Nat) (m1 : Machine) (n : Nat) :
    ∀ s, main_loop hw fuel n (0x0, m1) = some s →
      s.1 = n % 256 ∧ Performs m1 s.2 (rampWrites n) := by
  induction n with
  | zero =>
    intro s h
    simp only [main_loop, Option.some.injEq] at h
    rw [← h]
    exact ⟨rfl, Performs_refl m1⟩
  | succ n ih =>
    intro s h
    rw [main_loop] at h
    cases h1 : main_loop hw fuel n (0x0, m1) with
    | none => rw [h1] at h; cases h
    | some s1 =>
      rw [h1] at h
      obtain ⟨hd, hp⟩ := ih s1 h1
      obtain ⟨hd', hp'⟩ := main_body_performs hw fuel s1.1 s1.2 s h
      refine ⟨by rw [hd', hd]; omega, ?_⟩
      have := Performs_trans hp hp'
      rw [hd, Nat.mod_mod] at this
      exact this

theorem main_performs (hw : Feed) (fuel n : Nat) (m : Machine) (s : Nat × Machine)
    (h : main hw fuel n m = some s) : s.1 = n % 256 ∧ Performs m s.2 (rampWrites n) := by
  rw [main] at h
  cases h1 : TIM6Config hw fuel (I2C_Config hw m) with
  | none => rw [h1] at h; cases h
  | some m1 =>
    rw [h1] at h
    obtain ⟨hd, hp⟩ := main_loop_performs hw fuel m1 n s h
    refine ⟨hd, ?_⟩
    have := Performs_trans (I2C_Config_performs hw m)
      (Performs_trans (TIM6Config_performs hw fuel _ m1 h1) hp)
    simpa using this

theorem FlagsLive_allSet : FlagsLive allSet :=
  have h0 : word 0xFFFFFFFF &&& 1 <<< 0 ≠ 0 := by decide
  have h1 : word 0xFFFFFFFF &&& 1 <<< 1 ≠ 0 := by decide
  have h7 : word 0xFFFFFFFF &&& 1 <<< 7 ≠ 0 := by decide
  have h2 : word 0xFFFFFFFF &&& 1 <<< 2 ≠ 0 := by decide
  ⟨fun p => ⟨p, le_refl p, h0⟩, fun p => ⟨p, le_refl p, h0⟩,
    fun p => ⟨p, le_refl p, h1⟩, fun p => ⟨p, le_refl p, h7⟩,
    fun p => ⟨p, le_refl p, h2⟩⟩

theorem TimerLive_allSet : TimerLive allSet :=
  have hc : 1000 ≤ word 0xFFFFFFFF := by decide
  fun p => ⟨p, le_refl p, hc⟩

theorem FlagsLive_stuckTimer : FlagsLive stuckTimer :=
  have h0 : word 0xFFFFFFFF &&& 1 <<< 0 ≠ 0 := by decide
  have h1 : word 0xFFFFFFFF &&& 1 <<< 1 ≠ 0 := by decide
  have h7 : word 0xFFFFFFFF &&& 1 <<< 7 ≠ 0 := by decide
  have h2 : word 0xFFFFFFFF &&& 1 <<< 2 ≠ 0 := by decide
  ⟨fun p => ⟨p, le_refl p, h0⟩, fun p => ⟨p, le_refl p, h0⟩,
    fun p => ⟨p, le_refl p, h1⟩, fun p => ⟨p, le_refl p, h7⟩,
    fun p => ⟨p, le_refl p, h2⟩⟩

theorem main_Mono (hw : Feed) (n : Nat) : Mono (fun fuel m => main hw fuel n m) := by
  rw [main_seq]
  exact seq_mono _ _ (step_mono _) (seq_mono _ _ (TIM6Config_Mono hw)
    (seq_mono _ _ (step_mono _) (main_loop_Mono hw n)))

theorem main_zero_Total (hw : Feed) (hl : FlagsLive hw) :
    Total (fun fuel m => main hw fuel 0 m) := by
  rw [main_seq]
  have m3 : Mono (seq (step (fun m1 => ((0x0 : Nat), m1)))
      (fun fuel s => main_loop hw fuel 0 s)) := seq_mono _ _ (step_mono _) (main_loop_Mono hw 0)
  have t3 : Total (seq (step (fun m1 => ((0x0 : Nat), m1)))
      (fun fuel s => main_loop hw fuel 0 s)) :=
    seq_total _ _ (step_mono _) (main_loop_Mono hw 0) (step_total _)
      (fun a => ⟨0, a, rfl⟩)
  exact seq_total _ _ (step_mono _) (seq_mono _ _ (TIM6Config_Mono hw) m3) (step_total _)
    (seq_total _ _ (TIM6Config_Mono hw) m3 (TIM6Config_Total hw hl) t3)

theorem main_transfer_seq (hw : Feed) (dec : Nat) :
    (fun fuel m => main_transfer hw fuel dec m) =
      seq (fun fuel m => I2C_Start hw fuel m)
        (seq (fun fuel m => I2C_Address hw fuel 0x40 m)
          (seq (fun fuel m => I2C_Write hw fuel dec m)
            (step (fun m3 => ((dec + 0x1) % 256, I2C_Stop hw m3))))) := by
  funext fuel m
  simp only [main_transfer, seq, step, Option.some_bind]
  cases I2C_Start hw fuel m with
  | none => rfl
  | some m1 =>
    simp only [Option.some_bind]
    cases I2C_Address hw fuel 0x40 m1 with
    | none => rfl
    | some m2 =>
      simp only [Option.some_bind]
      cases I2C_Write hw fuel dec m2 <;> rfl

theorem main_transfer_Mono (hw : Feed) (dec : Nat) :
    Mono (fun fuel m => main_transfer hw fuel dec m) := by
  rw [main_transfer_seq]
  exact seq_mono _ _ (I2C_Start_Mono hw) (seq_mono _ _ (I2C_Address_Mono hw _)
    (seq_mono _ _ (I2C_Write_Mono hw _) (step_mono _)))

theorem main_transfer_Total (hw : Feed) (hl : FlagsLive hw) (dec : Nat) :
    Total (fun fuel m => main_transfer hw fuel dec m) := by
  rw [main_transfer_seq]
  have m3 : Mono (seq (fun fuel m => I2C_Write hw fuel dec m)
      (step (fun m3 => ((dec + 0x1) % 256, I2C_Stop hw m3)))) :=
    seq_mono _ _ (I2C_Write_Mono hw dec) (step_mono _)
  have m2 := seq_mono _ _ (I2C_Address_Mono hw 0x40) m3
  have t3 : Total (seq (fun fuel m => I2C_Write hw fuel dec m)
      (step (fun m3 => ((dec + 0x1) % 256, I2C_Stop hw m3)))) :=
    seq_total _ _ (I2C_Write_Mono hw dec) (step_mono _) (I2C_Write_Total hw hl dec)
      (step_total _)
  have t2 := seq_total _ _ (I2C_Address_Mono hw 0x40) m3 (I2C_Address_Total hw hl 0x40) t3
  exact seq_total _ _ (I2C_Start_Mono hw) m2 (I2C_Start_Total hw hl) t2

theorem main_transfer_performs (hw : Feed) (fuel dec : Nat) (m : Machine) (s : Nat × Machine)
    (h : main_transfer hw fuel dec m = some s) :
    s.1 = (dec + 1) % 256 ∧ Performs m s.2 [0x40, dec % 256] := by
  rw [main_transfer] at h
  cases h1 : I2C_Start hw fuel m with
  | none => rw [h1] at h; cases h
  | some m1 =>
    rw [h1] at h
    simp only at h
    cases h2 : I2C_Address hw fuel 0x40 m1 with
    | none => rw [h2] at h; cases h
    | some m2 =>
      rw [h2] at h
      simp only at h
      cases h3 : I2C_Write hw fuel dec m2 with
      | none => rw [h3] at h; cases h
      | some m3 =>
        rw [h3] at h
        simp only [Option.some.injEq] at h
        rw [← h]
        refine ⟨rfl, ?_⟩
        have p1 := I2C_Start_performs hw fuel m m1 h1
        have p2 := I2C_Address_performs hw fuel _ m1 m2 h2
        have p3 := I2C_Write_performs hw fuel dec m2 m3 h3
        have p4 := I2C_Stop_performs hw m3
        have := Performs_trans p1 (Performs_trans p2 (Performs_trans p3 p4))
        simpa using this

theorem main_body_eq_transfer (hw : Feed) (fuel dec : Nat) (m : Machine) :
    main_body hw fuel dec m =
      (main_transfer hw fuel dec m).bind
        (fun st => (Delay_ms hw fuel 100 st.2).map (fun m4 => (st.1, m4))) := by
  simp only [main_body, main_transfer]
  cases I2C_Start hw fuel m with
  | none => rfl
  | some m1 =>
    simp only
    cases I2C_Address hw fuel 0x40 m1 with
    | none => rfl
    | some m2 =>
      simp only
      cases I2C_Write hw fuel dec m2 with
      | none => rfl
      | some m3 =>
        simp only [Option.some_bind]
        cases Delay_ms hw fuel 100 (I2C_Stop hw m3) <;> rfl

theorem main_pass_transfer (hw : Feed) (hflags : FlagsLive hw) (m : Machine) (k fuel : Nat)
    (sk : Nat × Machine) (h : main hw fuel k m = some sk) :
    sk.1 = k % 256 ∧
    ∃ fuel' st, fuel ≤ fuel' ∧ main hw fuel' k m = some sk ∧
      main_transfer hw fuel' sk.1 sk.2 = some st ∧ Performs sk.2 st.2 [0x40, k % 256] := by
  obtain ⟨hd, -⟩ := main_performs hw fuel k m sk h
  obtain ⟨f2, st, h2⟩ := main_transfer_Total hw hflags sk.1 sk.2
  have h2' : main_transfer hw (max fuel f2) sk.1 sk.2 = some st :=
    main_transfer_Mono hw sk.1 f2 (max fuel f2) sk.2 st (le_max_right _ _) h2
  have h1' : main hw (max fuel f2) k m = some sk :=
    main_Mono hw k fuel (max fuel f2) m sk (le_max_left _ _) h
  obtain ⟨-, hp⟩ := main_transfer_performs hw _ sk.1 sk.2 st h2'
  rw [hd, Nat.mod_mod] at hp
  exact ⟨hd, max fuel f2, st, le_max_left _ _, h1', h2', hp⟩

/-! ## The transfer operations -/

/-- C1 (as amended): `I2C_Address` does not shift its argument. Whenever
`I2C_Address(A)` returns, its first access is the write of the byte `A` itself
to `I2C1->DR`, that is its only register write, and it is followed by the
reads of SR1 up to the first one with ADDR (bit 1) set, then one read of SR1
and one of SR2. -/
theorem I2C_Address_writes_argument (hw : Feed) (fuel A : Nat) (m : Machine)
    (h : (I2C_Address hw fuel A m).isSome = true) :
    ∃ m' vs v s1 s2, I2C_Address hw fuel A m = some m' ∧
      m'.trace = m.trace ++ [Access.wr I2C1_DR (A % 256)]
        ++ (vs ++ [v]).map (Access.rd I2C1_SR1)
        ++ [Access.rd I2C1_SR1 s1, Access.rd I2C1_SR2 s2] ∧
      (∀ x ∈ vs, x &&& (1 <<< 1) = 0) ∧ v &&& (1 <<< 1) ≠ 0 ∧
      drWrites m'.trace = drWrites m.trace ++ [A % 256] ∧
      writesOf m'.trace = writesOf m.trace ++ [(I2C1_DR, A % 256)] := by
  obtain ⟨m', hm'⟩ := Option.isSome_iff_exists.mp h
  obtain ⟨vs, v, s1, s2, ht, hvs, hv, -⟩ := I2C_Address_shape hw fuel A m m' hm'
  refine ⟨m', vs, v, s1, s2, hm', ht, hvs, hv, ?_, ?_⟩
  · rw [ht]
    simp [drWrites_append, drWrites_reads, drWrites]
  · rw [ht]
    simp [writesOf_append, writesOf_reads, writesOf]

/-- C1, witness: on a peripheral whose flags are all set, `I2C_Address(0x78)`
writes `0x78` to DR. -/
theorem I2C_Address_writes_argument_witness :
    (I2C_Address allSet 1 0x78 m0).isSome = true ∧
    ∃ m', I2C_Address allSet 1 0x78 m0 = some m' ∧ drWrites m'.trace = [0x78] := by
  refine ⟨by decide, ?_⟩
  obtain ⟨m', _, _, _, _, hm', _, _, _, hdr, _⟩ :=
    I2C_Address_writes_argument allSet 1 0x78 m0 (by decide)
  exact ⟨m', hm', by simpa [m0, drWrites] using hdr⟩

/-- C1, counterexample: `I2C_Address(0x3C)` returns after writing `0x3C` to DR,
not `(0x3C << 1) | 0 = 0x78`. -/
theorem I2C_Address_not_shifted :
    (I2C_Address allSet 1 0x3C m0).map (fun m => drWrites m.trace) = some [0x3C] ∧
    (I2C_Address allSet 1 0x3C m0).map (fun m => drWrites m.trace)
      ≠ some [(0x3C <<< 1) ||| 0] := by
  decide

/-- C2: whenever `I2C_Write(d)` returns, the accesses it made are: reads of SR1
of which the last, and only the last, has TXE (bit 7) set; one write of `d` to
DR; reads of SR1 of which the last, and only the last, has BTF (bit 2) set.
The values read are the successive values the peripheral supplies for SR1, and
the write of `d` to DR is the only register write. -/
theorem I2C_Write_trace (hw : Feed) (fuel d : Nat) (m : Machine)
    (h : (I2C_Write hw fuel d m).isSome = true) :
    ∃ m' pre vT post vB, I2C_Write hw fuel d m = some m' ∧
      m'.trace = m.trace ++ (pre ++ [vT]).map (Access.rd I2C1_SR1)
        ++ [Access.wr I2C1_DR (d % 256)] ++ (post ++ [vB]).map (Access.rd I2C1_SR1) ∧
      (∀ v ∈ pre, v &&& (1 <<< 7) = 0) ∧ vT &&& (1 <<< 7) ≠ 0 ∧
      (∀ v ∈ post, v &&& (1 <<< 2) = 0) ∧ vB &&& (1 <<< 2) ≠ 0 ∧
      (pre ++ [vT]) ++ (post ++ [vB]) =
        (List.range (pre.length + 1 + (post.length + 1))).map
          (fun i => word (hw I2C1_SR1 (m.pos I2C1_SR1 + i))) ∧
      writesOf m'.trace = writesOf m.trace ++ [(I2C1_DR, d % 256)] := by
  obtain ⟨m', hm'⟩ := Option.isSome_iff_exists.mp h
  obtain ⟨pre, vT, post, vB, ht, hpre, hvT, hpost, hvB, hfeed, -⟩ :=
    I2C_Write_shape hw fuel d m m' hm'
  refine ⟨m', pre, vT, post, vB, hm', ht, hpre, hvT, hpost, hvB, hfeed, ?_⟩
  rw [ht]
  simp [writesOf_append, writesOf_reads, writesOf]

/-- C2, witness: a peripheral that shows TXE and BTF at once. -/
theorem I2C_Write_trace_witness :
    (I2C_Write allSet 1 0x41 m0).isSome = true ∧
    ∃ m', I2C_Write allSet 1 0x41 m0 = some m' ∧
      writesOf m'.trace = [(I2C1_DR, 0x41)] := by
  refine ⟨by decide, ?_⟩
  obtain ⟨m', _, _, _, _, hm', _, _, _, _, _, _, hw'⟩ :=
    I2C_Write_trace allSet 1 0x41 m0 (by decide)
  exact ⟨m', hm', by simpa [m0, writesOf] using hw'⟩

/-- C10: `I2C_Stop` only performs `CR1 |= 1<<9` (one read and one write of
CR1, no status register read); a returning `I2C_Start` leaves
`CR1 = c | (1<<10) | (1<<8)`, every other register as it was, and its last
access is a read of SR1 with SB (bit 0) set, the earlier SR1 reads having SB
clear; `I2C_Address` and `I2C_Write` leave CR1 as it was. Hence a CR1 bit other
than ACK, START and STOP, such as PE, is kept by all four. -/
theorem transfer_ops_CR1 (hw : Feed) (fuel A d : Nat) (m : Machine) :
    (I2C_Stop hw m).regs =
        Function.update m.regs I2C1_CR1 (word (m.regs I2C1_CR1) ||| (1 <<< 9)) ∧
    (I2C_Stop hw m).pos = m.pos ∧
    (I2C_Stop hw m).trace = m.trace ++
        [Access.rd I2C1_CR1 (word (m.regs I2C1_CR1)),
         Access.wr I2C1_CR1 (word (m.regs I2C1_CR1) ||| (1 <<< 9))] ∧
    (∀ m', I2C_Start hw fuel m = some m' →
      m'.regs = Function.update m.regs I2C1_CR1
        (word (m.regs I2C1_CR1) ||| (1 <<< 10) ||| (1 <<< 8)) ∧
      ∃ vs v, m'.trace = m.trace ++
          [Access.rd I2C1_CR1 (word (m.regs I2C1_CR1)),
           Access.wr I2C1_CR1 (word (m.regs I2C1_CR1) ||| (1 <<< 10)),
           Access.rd I2C1_CR1 (word (m.regs I2C1_CR1) ||| (1 <<< 10)),
           Access.wr I2C1_CR1 (word (m.regs I2C1_CR1) ||| (1 <<< 10) ||| (1 <<< 8))]
          ++ (vs ++ [v]).map (Access.rd I2C1_SR1) ∧
        (∀ x ∈ vs, x &&& (1 <<< 0) = 0) ∧ v &&& (1 <<< 0) ≠ 0) ∧
    (∀ m', I2C_Address hw fuel A m = some m' → m'.regs I2C1_CR1 = m.regs I2C1_CR1) ∧
    (∀ m', I2C_Write hw fuel d m = some m' → m'.regs I2C1_CR1 = m.regs I2C1_CR1) ∧
    (∀ i, i ≠ 9 → bit ((I2C_Stop hw m).regs I2C1_CR1) i = bit (word (m.regs I2C1_CR1)) i) ∧
    (∀ m' i, I2C_Start hw fuel m = some m' → i ≠ 10 → i ≠ 8 →
      bit (m'.regs I2C1_CR1) i = bit (word (m.regs I2C1_CR1)) i) ∧
    (bit (m.regs I2C1_CR1) 0 = true →
      bit ((I2C_Stop hw m).regs I2C1_CR1) 0 = true ∧
      (∀ m', I2C_Start hw fuel m = some m' → bit (m'.regs I2C1_CR1) 0 = true) ∧
      (∀ m', I2C_Address hw fuel A m = some m' → bit (m'.regs I2C1_CR1) 0 = true) ∧
      (∀ m', I2C_Write hw fuel d m = some m' → bit (m'.regs I2C1_CR1) 0 = true)) := by
  have hb9 : ∀ i, i ≠ 9 → Nat.testBit (1 <<< 9) i = false := by
    intro i hi
    rw [Nat.one_shiftLeft, Nat.testBit_two_pow]; simpa using hi.symm
  have hb10 : ∀ i, i ≠ 10 → Nat.testBit (1 <<< 10) i = false := by
    intro i hi
    rw [Nat.one_shiftLeft, Nat.testBit_two_pow]; simpa using hi.symm
  have hb8 : ∀ i, i ≠ 8 → Nat.testBit (1 <<< 8) i = false := by
    intro i hi
    rw [Nat.one_shiftLeft, Nat.testBit_two_pow]; simpa using hi.symm
  have hpe : bit (word (m.regs I2C1_CR1)) 0 = bit (m.regs I2C1_CR1) 0 := by
    show Nat.testBit (m.regs I2C1_CR1 % 2 ^ 32) 0 = Nat.testBit (m.regs I2C1_CR1) 0
    rw [Nat.testBit_mod_two_pow]
    simp only [Nat.ofNat_pos, decide_True, Bool.true_and]
  have hstart : ∀ m' i, I2C_Start hw fuel m = some m' → i ≠ 10 → i ≠ 8 →
      bit (m'.regs I2C1_CR1) i = bit (word (m.regs I2C1_CR1)) i := by
    intro m' i hm' h10 h8
    obtain ⟨_, _, _, _, _, hr⟩ := I2C_Start_shape hw fuel m m' hm'
    rw [hr]
    simp only [Function.update_same, bit, Nat.testBit_or, hb10 i h10, hb8 i h8, Bool.or_false]
  have hstop : ∀ i, i ≠ 9 →
      bit ((I2C_Stop hw m).regs I2C1_CR1) i = bit (word (m.regs I2C1_CR1)) i := by
    intro i hi
    rw [I2C_Stop_eq]
    simp only [Function.update_same, bit, Nat.testBit_or, hb9 i hi, Bool.or_false]
  have haddr : ∀ m', I2C_Address hw fuel A m = some m' →
      m'.regs I2C1_CR1 = m.regs I2C1_CR1 := by
    intro m' hm'
    obtain ⟨_, _, _, _, _, _, _, hr⟩ := I2C_Address_shape hw fuel A m m' hm'
    rw [hr]; simp
  have hwrite : ∀ m', I2C_Write hw fuel d m = some m' →
      m'.regs I2C1_CR1 = m.regs I2C1_CR1 := by
    intro m' hm'
    obtain ⟨_, _, _, _, _, _, _, _, _, _, hr⟩ := I2C_Write_shape hw fuel d m m' hm'
    rw [hr]; simp
  refine ⟨by rw [I2C_Stop_eq], by rw [I2C_Stop_eq], by rw [I2C_Stop_eq], ?_, haddr, hwrite,
    hstop, hstart, ?_⟩
  · intro m' hm'
    obtain ⟨vs, v, ht, hvs, hv, hr⟩ := I2C_Start_shape hw fuel m m' hm'
    exact ⟨hr, vs, v, ht, hvs, hv⟩
  · intro hPE
    refine ⟨?_, ?_, ?_, ?_⟩
    · rw [hstop 0 (by decide), hpe, hPE]
    · intro m' hm'
      rw [hstart m' 0 hm' (by decide) (by decide), hpe, hPE]
    · intro m' hm'
      rw [haddr m' hm', hPE]
    · intro m' hm'
      rw [hwrite m' hm', hPE]

/-- C10, witness: from a state with PE set, on a peripheral whose flags are all
set, the four operations return and keep PE. -/
theorem transfer_ops_CR1_witness :
    (∃ m', I2C_Start allSet 1 (wr I2C1_CR1 1 m0) = some m' ∧ bit (m'.regs I2C1_CR1) 0 = true) ∧
    (∃ m', I2C_Address allSet 1 0x40 (wr I2C1_CR1 1 m0) = some m' ∧
      bit (m'.regs I2C1_CR1) 0 = true) ∧
    (∃ m', I2C_Write allSet 1 0 (wr I2C1_CR1 1 m0) = some m' ∧
      bit (m'.regs I2C1_CR1) 0 = true) ∧
    bit ((I2C_Stop allSet (wr I2C1_CR1 1 m0)).regs I2C1_CR1) 0 = true :=
  have h := (transfer_ops_CR1 allSet 1 0x40 0 (wr I2C1_CR1 1 m0)).2.2.2.2.2.2.2.2 (by decide)
  ⟨⟨_, rfl, h.2.1 _ rfl⟩, ⟨_, rfl, h.2.2.1 _ rfl⟩, ⟨_, rfl, h.2.2.2 _ rfl⟩, h.1⟩

/-! ## `I2C_Config` -/

/-- C3: from a state in which CR1 and CR2 of I2C1 and the PB8/PB9 fields of the
GPIOB registers are zero, `I2C_Config` returns with PE = 1, SWRST = 0,
CR2[5:0] = 45, CCR = 225, TRISE = 46, PB8 and PB9 configured (MODER fields
0b10, OTYPER bits 1, OSPEEDR fields 0b11, PUPDR fields 0b01, AFR[1] fields 4),
and the I2C1 and GPIOB clock enable bits set. -/
theorem I2C_Config_from_reset (hw : Feed) (m : Machine) (h : atReset m.regs) :
    bit ((I2C_Config hw m).regs I2C1_CR1) 0 = true ∧
    bit ((I2C_Config hw m).regs I2C1_CR1) 15 = false ∧
    field ((I2C_Config hw m).regs I2C1_CR2) 0 6 = 45 ∧
    (I2C_Config hw m).regs I2C1_CCR = 225 ∧
    (I2C_Config hw m).regs I2C1_TRISE = 46 ∧
    pinsConfigured (I2C_Config hw m).regs ∧
    bit ((I2C_Config hw m).regs RCC_APB1ENR) 21 = true ∧
    bit ((I2C_Config hw m).regs RCC_AHB1ENR) 1 = true := by
  have hpins := (I2C_Config_at_pins hw m 13 (by decide) (by decide)).mpr
    (atReset_entryBitsClear _ h)
  obtain ⟨hcr1, hcr2, -⟩ := h
  refine ⟨?_, ?_, ?_, ?_, ?_, hpins, ?_, ?_⟩ <;>
  simp (disch := decide) only [I2C_Config, I2C_Config_body, execStmts,
      execStmt_orEq, execStmt_andEq, execStmt_assign, Function.update_same,
      Function.update_noteq, ne_eq, not_false_eq_true, reduceCtorEq, hcr1, hcr2,
      bit_or_true] <;>
  decide

/-- C3, witness: the all-zero state. -/
theorem I2C_Config_from_reset_witness :
    atReset m0.regs ∧ bit ((I2C_Config allSet m0).regs I2C1_CR1) 0 = true ∧
      pinsConfigured (I2C_Config allSet m0).regs :=
  ⟨by decide, (I2C_Config_from_reset allSet m0 (by decide)).1,
    (I2C_Config_from_reset allSet m0 (by decide)).2.2.2.2.2.1⟩

/-- C7: with the registers as plain storage, running `I2C_Config` a second time
leaves every register as the first run left it. -/
theorem I2C_Config_idempotent (hw : Feed) (m : Machine) :
    (I2C_Config hw (I2C_Config hw m)).regs = (I2C_Config hw m).regs :=
  I2C_Config_regs_idem hw m

/-- C8 (as amended): statement 12 of `I2C_Config` is the write that sets PE, and
at every moment from the end of the GPIO configuration on (statements 7 to 12
and on return), so in particular when PE is written, PB8 and PB9 are configured
exactly when, on entry, the bits of their fields that the code does not set
were clear: MODER bits 16 and 18, PUPDR bits 17 and 19, AFR[1] bits 0, 1, 3, 4,
5 and 7. That holds from the reset state. The OTYPER bits and OSPEEDR fields
are as required from every entry state. -/
theorem pins_configured_at_enable (hw : Feed) (m : Machine) :
    I2C_Config_body[12]? = some (Stmt.orEq I2C1_CR1 (1 <<< 0)) ∧
    (pinsConfigured (I2C_Config_at hw 12 m).regs ↔ entryBitsClear m.regs) ∧
    (∀ k, 7 ≤ k → k ≤ 13 →
      (pinsConfigured (I2C_Config_at hw k m).regs ↔ entryBitsClear m.regs)) ∧
    (atReset m.regs → pinsConfigured (I2C_Config_at hw 12 m).regs) ∧
    bit ((I2C_Config_at hw 12 m).regs GPIOB_OTYPER) 8 = true ∧
    bit ((I2C_Config_at hw 12 m).regs GPIOB_OTYPER) 9 = true ∧
    field ((I2C_Config_at hw 12 m).regs GPIOB_OSPEEDR) 16 2 = 3 ∧
    field ((I2C_Config_at hw 12 m).regs GPIOB_OSPEEDR) 18 2 = 3 := by
  refine ⟨rfl, I2C_Config_at_pins hw m 12 (by decide) (by decide),
    fun k h7 h13 => I2C_Config_at_pins hw m k h7 h13,
    fun h => (I2C_Config_at_pins hw m 12 (by decide) (by decide)).mpr
      (atReset_entryBitsClear _ h), ?_, ?_, ?_, ?_⟩ <;>
  simp (disch := decide) only [I2C_Config_at, I2C_Config_body, List.take, execStmts,
      execStmt_orEq, execStmt_andEq, execStmt_assign, Function.update_same,
      Function.update_noteq, ne_eq, not_false_eq_true, reduceCtorEq, bit_or_true,
      ospeedr_field_lo, ospeedr_field_hi]

/-- C8, witness: from the all-zero state the pins are configured when PE is
written. -/
theorem pins_configured_at_enable_witness :
    atReset m0.regs ∧ pinsConfigured (I2C_Config_at allSet 12 m0).regs :=
  ⟨by decide, (pins_configured_at_enable allSet m0).2.2.2.1 (by decide)⟩

/-- C8, counterexample: entered with PB8 as a general-purpose output
(MODER[17:16] = 0b01), `I2C_Config` reaches the write of PE with
MODER[17:16] = 0b11, analog mode, not alternate function. -/
theorem pins_not_configured_from_output :
    I2C_Config_body[12]? = some (Stmt.orEq I2C1_CR1 (1 <<< 0)) ∧
    field (pb8Output.regs GPIOB_MODER) 16 2 = 1 ∧
    field ((I2C_Config_at allSet 12 pb8Output).regs GPIOB_MODER) 16 2 = 3 ∧
    ¬ pinsConfigured (I2C_Config_at allSet 12 pb8Output).regs := by
  decide

/-- C9: the register writes of `I2C_Config` are, in order, the two clock
enables, the five GPIOB writes, then for I2C1: CR1 with SWRST set, CR1 with
SWRST clear, CR2, CCR = 225, TRISE = 46 and last of all CR1 with PE set. The
three writes to CR2, CCR and TRISE are statements 9, 10 and 11, before
statement 12 which sets PE, and when PE is 0 on entry it is still 0 at each of
them. -/
theorem I2C_Config_write_order (hw : Feed) (m : Machine) :
    writesOf (I2C_Config hw m).trace = writesOf m.trace ++
      [ (RCC_APB1ENR, word (m.regs RCC_APB1ENR) ||| 1 <<< 21),
        (RCC_AHB1ENR, word (m.regs RCC_AHB1ENR) ||| 1 <<< 1),
        (GPIOB_MODER, word (m.regs GPIOB_MODER) ||| (2 <<< 16 ||| 2 <<< 18)),
        (GPIOB_OTYPER, word (m.regs GPIOB_OTYPER) ||| (1 <<< 8 ||| 1 <<< 9)),
        (GPIOB_OSPEEDR, word (m.regs GPIOB_OSPEEDR) ||| (3 <<< 16 ||| 3 <<< 18)),
        (GPIOB_PUPDR, word (m.regs GPIOB_PUPDR) ||| (1 <<< 16 ||| 1 <<< 18)),
        (GPIOB_AFR1, word (m.regs GPIOB_AFR1) ||| (4 <<< 0 ||| 4 <<< 4)),
        (I2C1_CR1, word (m.regs I2C1_CR1) ||| 1 <<< 15),
        (I2C1_CR1, (word (m.regs I2C1_CR1) ||| 1 <<< 15) &&& not32 (1 <<< 15)),
        (I2C1_CR2, word (m.regs I2C1_CR2) ||| 45 <<< 0),
        (I2C1_CCR, 225),
        (I2C1_TRISE, 46),
        (I2C1_CR1, (word (m.regs I2C1_CR1) ||| 1 <<< 15) &&& not32 (1 <<< 15) ||| 1 <<< 0) ] ∧
    bit (word (m.regs I2C1_CR1) ||| 1 <<< 15) 15 = true ∧
    bit ((word (m.regs I2C1_CR1) ||| 1 <<< 15) &&& not32 (1 <<< 15)) 15 = false ∧
    bit ((word (m.regs I2C1_CR1) ||| 1 <<< 15) &&& not32 (1 <<< 15) ||| 1 <<< 0) 0 = true ∧
    (I2C_Config hw m).trace.getLast? = some (Access.wr I2C1_CR1
      ((word (m.regs I2C1_CR1) ||| 1 <<< 15) &&& not32 (1 <<< 15) ||| 1 <<< 0)) ∧
    I2C_Config_body[9]? = some (Stmt.orEq I2C1_CR2 (45 <<< 0)) ∧
    I2C_Config_body[10]? = some (Stmt.assign I2C1_CCR (225 <<< 0)) ∧
    I2C_Config_body[11]? = some (Stmt.assign I2C1_TRISE 46) ∧
    I2C_Config_body[12]? = some (Stmt.orEq I2C1_CR1 (1 <<< 0)) ∧
    I2C_Config_body.length = 13 ∧
    (bit (m.regs I2C1_CR1) 0 = false →
      bit ((I2C_Config_at hw 9 m).regs I2C1_CR1) 0 = false ∧
      bit ((I2C_Config_at hw 10 m).regs I2C1_CR1) 0 = false ∧
      bit ((I2C_Config_at hw 11 m).regs I2C1_CR1) 0 = false ∧
      bit ((I2C_Config_at hw 12 m).regs I2C1_CR1) 0 = false) := by
  have hb15 : bit (not32 (1 <<< 15)) 15 = false := by decide
  have hb0 : bit (1 <<< 15) 0 = false := by decide
  refine ⟨I2C_Config_writes hw m, bit_or_true _ _ _ (by decide), ?_,
    bit_or_true _ _ _ (by decide), I2C_Config_last hw m, rfl, rfl, rfl, rfl, rfl, ?_⟩
  · rw [bit_and, hb15, Bool.and_false]
  · intro hPE
    have hw0 : bit (word (m.regs I2C1_CR1)) 0 = false := by
      rw [bit_word _ _ (by decide), hPE]
    have hv : bit ((word (m.regs I2C1_CR1) ||| 1 <<< 15) &&& not32 (1 <<< 15)) 0 = false := by
      rw [bit_and, bit_or, hw0, hb0]; rfl
    refine ⟨?_, ?_, ?_, ?_⟩
    · rw [I2C_Config_at_CR1 hw m 9 (by decide) (by decide)]; exact hv
    · rw [I2C_Config_at_CR1 hw m 10 (by decide) (by decide)]; exact hv
    · rw [I2C_Config_at_CR1 hw m 11 (by decide) (by decide)]; exact hv
    · rw [I2C_Config_at_CR1 hw m 12 (by decide) (by decide)]; exact hv

/-- C9, witness: entered with PE clear, PE is clear when CR2, CCR and TRISE are
written. -/
theorem I2C_Config_write_order_witness :
    bit (m0.regs I2C1_CR1) 0 = false ∧
    bit ((I2C_Config_at allSet 9 m0).regs I2C1_CR1) 0 = false ∧
    bit ((I2C_Config_at allSet 11 m0).regs I2C1_CR1) 0 = false :=
  have h := (I2C_Config_write_order allSet m0).2.2.2.2.2.2.2.2.2.2 (by decide)
  ⟨by decide, h.1, h.2.2.1⟩

/-! ## The delay service -/

/-- C5: for `n <= 0xFFFF`, `Delay_ms(n)` is exactly `n` successive calls of
`Delay_us(1000)`: it returns when each of them does, the loop counter, which is
incremented modulo `2^16`, never wraps, the only register writes are the `n`
writes of 0 to `TIM6->CNT` that the calls begin with, and `Delay_ms(0)` returns
at once without any register access. -/
theorem Delay_ms_calls (hw : Feed) (fuel n : Nat) (m : Machine) (hn : n ≤ 0xFFFF) :
    Delay_ms hw fuel n m = repeatCall (Delay_us hw fuel 1000) n m ∧
    ((∀ m1, (Delay_us hw fuel 1000 m1).isSome = true) →
      (Delay_ms hw fuel n m).isSome = true) ∧
    (∀ m', Delay_ms hw fuel n m = some m' →
      writesOf m'.trace = writesOf m.trace ++ List.replicate n (TIM6_CNT, 0)) ∧
    (∀ i, i < n → (i + 1) % 65536 = i + 1) ∧
    Delay_ms hw fuel 0 m = some m := by
  have hmod : n % 65536 = n := Nat.mod_eq_of_lt (by omega)
  have heq : Delay_ms hw fuel n m = repeatCall (Delay_us hw fuel 1000) n m := by
    rw [Delay_ms_eq, hmod]
  refine ⟨heq, ?_, ?_, ?_, ?_⟩
  · intro hret
    rw [heq]
    exact repeatCall_isSome _ hret n m
  · intro m' hm'
    rw [heq] at hm'
    exact repeatCall_writes hw fuel 1000 n m m' hm'
  · intro i hi
    exact Nat.mod_eq_of_lt (by omega)
  · rw [Delay_ms_eq]; rfl

/-- C5, witness: three milliseconds on a timer whose counter reads high at
once. -/
theorem Delay_ms_calls_witness :
    3 ≤ 0xFFFF ∧
    Delay_ms allSet 1 3 m0 = repeatCall (Delay_us allSet 1 1000) 3 m0 ∧
    (Delay_ms allSet 1 3 m0).isSome = true :=
  ⟨by decide, (Delay_ms_calls allSet 1 3 m0 (by decide)).1,
    (Delay_ms_calls allSet 1 3 m0 (by decide)).2.1 (fun _ => rfl)⟩

/-- C6: under the timer model, for every `n <= 0xFFFF`, `Delay_us(n)` writes 0
to `TIM6->CNT` and then makes `k + 1` reads of it, for some `k`, and returns:
it returns the same state for every bound above `k` on the number of loop
iterations, and does not return within `k` or fewer. The last value read is
exactly `n`, every earlier one is below `n`, the values read never decrease
(there is no wrap-around), at least `n` ticks have elapsed (`n <= k`, with at
most one tick between two reads), and for `n = 0` there is a single read. -/
theorem Delay_us_exact (hw : Feed) (m : Machine) (n : Nat) (hn : n ≤ 0xFFFF)
    (ht : TimerModel hw (m.pos TIM6_CNT)) :
    ∃ k,
      (∀ fuel, k < fuel →
        Delay_us hw fuel n m = some (afterReads hw TIM6_CNT (k + 1) (wr TIM6_CNT 0 m))) ∧
      (∀ fuel, fuel ≤ k → Delay_us hw fuel n m = none) ∧
      (afterReads hw TIM6_CNT (k + 1) (wr TIM6_CNT 0 m)).trace =
        m.trace ++ Access.wr TIM6_CNT 0 ::
          (List.range (k + 1)).map
            (fun i => Access.rd TIM6_CNT (hw TIM6_CNT (m.pos TIM6_CNT + i))) ∧
      (afterReads hw TIM6_CNT (k + 1) (wr TIM6_CNT 0 m)).trace.getLast? =
        some (Access.rd TIM6_CNT n) ∧
      hw TIM6_CNT (m.pos TIM6_CNT + k) = n ∧
      (∀ i, i < k → hw TIM6_CNT (m.pos TIM6_CNT + i) < n) ∧
      (∀ i, i < k →
        hw TIM6_CNT (m.pos TIM6_CNT + i) ≤ hw TIM6_CNT (m.pos TIM6_CNT + i + 1)) ∧
      n ≤ k ∧
      (n = 0 → k = 0) := by
  obtain ⟨k, hk, hlt, hmono⟩ := timer_reach hw _ ht n (by omega)
  have hmod : n % 65536 = n := Nat.mod_eq_of_lt (by omega)
  have hword : ∀ i, i ≤ k → word (hw TIM6_CNT (m.pos TIM6_CNT + i)) =
      hw TIM6_CNT (m.pos TIM6_CNT + i) := by
    intro i hi
    apply word_of_lt
    rcases Nat.lt_or_eq_of_le hi with h | h
    · have := hlt i h
      omega
    · rw [h, hk]; omega
  have hpos : (wr TIM6_CNT 0 m).pos TIM6_CNT = m.pos TIM6_CNT := rfl
  have htrace : (afterReads hw TIM6_CNT (k + 1) (wr TIM6_CNT 0 m)).trace =
      m.trace ++ Access.wr TIM6_CNT 0 ::
        (List.range (k + 1)).map
          (fun i => Access.rd TIM6_CNT (hw TIM6_CNT (m.pos TIM6_CNT + i))) := by
    simp only [afterReads, wr, List.append_assoc, List.singleton_append]
    congr 2
    apply List.map_congr_left
    intro i hi
    rw [hword i (by simpa [Nat.lt_succ_iff] using hi)]
  have hslow : n ≤ k := by
    have := timer_slow hw _ ht k
    omega
  refine ⟨k, ?_, ?_, htrace, ?_, hk, hlt, hmono, hslow, ?_⟩
  · intro fuel hf
    rw [Delay_us, waitCnt, poll_iff hw TIM6_CNT _ rfl]
    refine ⟨k, hf, ?_, ?_, rfl⟩
    · rw [hpos, hword k (le_refl _), hk, hmod]; simp
    · intro i hi
      rw [hpos, hword i (by omega), hmod]
      simpa using hlt i hi
  · intro fuel hf
    cases hres : Delay_us hw fuel n m with
    | none => rfl
    | some m' =>
      exfalso
      rw [Delay_us, waitCnt, poll_iff hw TIM6_CNT _ rfl] at hres
      obtain ⟨k', hk', hstop, -, -⟩ := hres
      rw [hpos, hword k' (by omega), hmod] at hstop
      have := hlt k' (by omega)
      simp at hstop
      omega
  · rw [htrace, List.range_succ, List.map_append, ← List.cons_append, ← List.append_assoc]
    simp only [List.map_cons, List.map_nil, Nat.add_zero, hk]
    exact List.getLast?_concat _
  · intro h0
    by_contra hne
    have := hlt 0 (by omega)
    omega

/-- C6, witness: a timer that ticks once between reads, and a delay of three
microseconds. -/
theorem Delay_us_exact_witness :
    3 ≤ 0xFFFF ∧ TimerModel tickingTimer (m0.pos TIM6_CNT) ∧
    ∃ k, (∀ fuel, k < fuel →
        Delay_us tickingTimer fuel 3 m0 =
          some (afterReads tickingTimer TIM6_CNT (k + 1) (wr TIM6_CNT 0 m0))) ∧
      tickingTimer TIM6_CNT (m0.pos TIM6_CNT + k) = 3 := by
  have ht : TimerModel tickingTimer (m0.pos TIM6_CNT) := by
    refine ⟨rfl, ?_, ?_⟩
    · intro i _
      right
      simp [tickingTimer]
    · intro i _
      refine ⟨i + 1, by omega, ?_⟩
      simp only [tickingTimer, if_true]
      omega
  obtain ⟨k, h1, -, -, -, h2, -⟩ := Delay_us_exact tickingTimer m0 3 (by decide) ht
  exact ⟨by decide, ht, k, h1, h2⟩

/-! ## The loop of `main` -/

/-- C4: on hardware where every polled status flag is eventually observed set,
`main` enters pass 0 of its loop and, in every execution that enters pass `k`
(counting from 0), the pass is entered with `dec = k mod 256` and its transfer
part (start, address, write, stop) returns and writes DR exactly twice: the
address byte `0x40`, then the data byte `k mod 256`; so pass 0 writes
`0x40, 0x00`. The transfer part followed by `Delay_ms(100)` is the whole loop
body, and the delay writes nothing to DR. When in addition the counter of TIM6
is eventually observed at 1000, so that each delay returns, every pass `k` is
entered and completed. The DR writes of the first `n` passes together are
`0x40, 0, 0x40, 1, ...`, and nothing else writes DR. -/
theorem main_dr_writes (hw : Feed) (hflags : FlagsLive hw) (m : Machine) (k : Nat) :
    (∃ fuel s0 st, main hw fuel 0 m = some s0 ∧
      main_transfer hw fuel s0.1 s0.2 = some st ∧ Performs s0.2 st.2 [0x40, 0x00]) ∧
    (∀ fuel sk, main hw fuel k m = some sk →
      sk.1 = k % 256 ∧
      ∃ fuel' st, fuel ≤ fuel' ∧ main hw fuel' k m = some sk ∧
        main_transfer hw fuel' sk.1 sk.2 = some st ∧
        Performs sk.2 st.2 [0x40, k % 256]) ∧
    (∀ fuel dec m1, main_body hw fuel dec m1 =
      (main_transfer hw fuel dec m1).bind
        (fun st => (Delay_ms hw fuel 100 st.2).map (fun m4 => (st.1, m4)))) ∧
    (∀ fuel n m1 m2, Delay_ms hw fuel n m1 = some m2 → Performs m1 m2 []) ∧
    (TimerLive hw →
      ∃ fuel sk sk1, main hw fuel k m = some sk ∧ main hw fuel (k + 1) m = some sk1 ∧
        sk.1 = k % 256 ∧ Performs sk.2 sk1.2 [0x40, k % 256]) ∧
    (∀ fuel sk sk1, main hw fuel k m = some sk → main hw fuel (k + 1) m = some sk1 →
      sk.1 = k % 256 ∧ Performs sk.2 sk1.2 [0x40, k % 256]) ∧
    (∀ fuel n s, main hw fuel n m = some s →
      drWrites s.2.trace = drWrites m.trace ++ rampWrites n) := by
  have huniv : ∀ fuel sk sk1, main hw fuel k m = some sk → main hw fuel (k + 1) m = some sk1 →
      sk.1 = k % 256 ∧ Performs sk.2 sk1.2 [0x40, k % 256] := by
    intro fuel sk sk1 h1 h2
    rw [main_succ, h1] at h2
    obtain ⟨hd, -⟩ := main_performs hw fuel k m sk h1
    obtain ⟨-, hp⟩ := main_body_performs hw fuel sk.1 sk.2 sk1 h2
    rw [hd, Nat.mod_mod] at hp
    exact ⟨hd, hp⟩
  refine ⟨?_, fun fuel sk h => main_pass_transfer hw hflags m k fuel sk h,
    fun fuel dec m1 => main_body_eq_transfer hw fuel dec m1,
    fun fuel n m1 m2 h => Delay_ms_performs hw fuel n m1 m2 h, ?_, huniv, ?_⟩
  · obtain ⟨fuel, s0, h0⟩ := main_zero_Total hw hflags m
    obtain ⟨-, fuel', st, -, h1, h2, hp⟩ := main_pass_transfer hw hflags m 0 fuel s0 h0
    exact ⟨fuel', s0, st, h1, h2, hp⟩
  · intro htimer
    obtain ⟨fuel, sk1, h2⟩ := main_Total hw ⟨hflags, htimer⟩ (k + 1) m
    have h2' : main hw fuel (k + 1) m = some sk1 := h2
    cases h1 : main hw fuel k m with
    | none => rw [main_succ, h1] at h2'; cases h2'
    | some sk =>
      obtain ⟨hd, hp⟩ := huniv fuel sk sk1 h1 h2'
      exact ⟨fuel, sk, sk1, h1, h2', hd, hp⟩
  · intro fuel n s h
    exact Performs_drWrites (main_performs hw fuel n m s h).2

/-- C4, witness: with every flag set and the counter of TIM6 stuck at 0, pass 0
is entered and writes `0x40, 0x00`; with every flag set and the counter reading
high, pass number 256, the 257th, is reached and writes `0x40` and then `0x00`
again. -/
theorem main_dr_writes_witness :
    FlagsLive stuckTimer ∧
    (∃ fuel s0 st, main stuckTimer fuel 0 m0 = some s0 ∧
      main_transfer stuckTimer fuel s0.1 s0.2 = some st ∧ Performs s0.2 st.2 [0x40, 0x00]) ∧
    FlagsLive allSet ∧ TimerLive allSet ∧
    ∃ fuel sk sk1, main allSet fuel 256 m0 = some sk ∧ main allSet fuel 257 m0 = some sk1 ∧
      sk.1 = 0 ∧ Performs sk.2 sk1.2 [0x40, 0x00] :=
  ⟨FlagsLive_stuckTimer, (main_dr_writes stuckTimer FlagsLive_stuckTimer m0 0).1,
    FlagsLive_allSet, TimerLive_allSet,
    (main_dr_writes allSet FlagsLive_allSet m0 256).2.2.2.2.1 TimerLive_allSet⟩

end Task
